import Mathlib

/-!
Verification of the NeonX.O game server core: a shallow embedding of the
TypeScript sources (TicTacToeEngine, BotAI, EscrowService, GameService)
into Lean 4, together with proofs of the specification claims.

Conventions of the embedding:
* TypeScript `number` coordinates are `Int` (they are bounds-checked in the
  source, so negative inputs are meaningful); board indices after a bounds
  check are converted with `Int.toNat`.
* The board `Player[][]` is `List (List (Option Player))`.
* Mutation is modelled by explicit state passing; methods that mutate and
  return a boolean become functions returning `Bool × State`.
* `Date.now()` timestamps become an explicit `Nat` argument.
* External I/O of the escrow service (chain reads, transfers) is modelled
  by an environment record saying whether the treasury signer is loaded,
  the treasury balance, and whether a submitted transfer confirms; an
  issued transfer is reported in the result.
-/

namespace NeonXO

/-- `Player` from types/game.ts: `'X' | 'O'` (the `null` case is `Option`). -/
inductive Player where
  | X
  | O
deriving DecidableEq, Repr

def Player.other : Player → Player
  | .X => .O
  | .O => .X

/-- A board cell: `Player | null`. -/
abbrev Cell := Option Player

/-- `Player[][]`: a list of rows. -/
abbrev Board := List (List Cell)

/-- `GameConfig` from types/game.ts. -/
structure GameConfig where
  mode : String
  boardSize : Nat
  winCondition : Nat
  infiniteMode : Bool
deriving DecidableEq, Repr

/-- `Move` from types/game.ts (row/col are JS numbers, bounds-checked). -/
structure Move where
  row : Int
  col : Int
  player : Player
  timestamp : Nat
deriving DecidableEq, Repr

/-- An entry of `placedOrder` in TicTacToeEngine. -/
structure Placed where
  player : Player
  row : Int
  col : Int
deriving DecidableEq, Repr

/-- `GameStatus` (engine side): `'ACTIVE' | 'FINISHED' | 'DRAW'`
(`WAITING` belongs to rooms, not to the engine). -/
inductive GameStatus where
  | ACTIVE
  | FINISHED
  | DRAW
deriving DecidableEq, Repr

/-- The mutable fields of class `TicTacToeEngine`. -/
structure Engine where
  boardSize : Nat
  winCondition : Nat
  infiniteMode : Bool
  board : Board
  playerXPlacedCount : Int
  playerOPlacedCount : Int
  moveHistory : List Move
  placedOrder : List Placed
deriving DecidableEq, Repr

/-- Read `board[r][c]` at `Nat` indices; out of range gives `null`. -/
def cellNat (b : Board) (r c : Nat) : Cell :=
  (b.getD r []).getD c none

/-- Read `board[r][c]` after a bounds check has ensured `0 ≤ r, c`. -/
def cellAt (b : Board) (r c : Int) : Cell :=
  cellNat b r.toNat c.toNat

/-- Write `board[r][c] = v` (a JS array write; out of range is a no-op
for in-range-checked callers this never happens). -/
def setCell (b : Board) (r c : Int) (v : Cell) : Board :=
  b.set r.toNat ((b.getD r.toNat []).set c.toNat v)

/-- `createEmptyBoard` of TicTacToeEngine. -/
def createEmptyBoard (n : Nat) : Board :=
  List.replicate n (List.replicate n (none : Cell))

/-- The `constructor` of TicTacToeEngine. -/
def initEngine (config : GameConfig) : Engine :=
  { boardSize := config.boardSize
    winCondition := config.winCondition
    infiniteMode := config.infiniteMode
    board := createEmptyBoard config.boardSize
    playerXPlacedCount := 0
    playerOPlacedCount := 0
    moveHistory := []
    placedOrder := [] }

/-- `getCurrentPlayer`: X if the move history length is even, else O. -/
def getCurrentPlayer (e : Engine) : Player :=
  if e.moveHistory.length % 2 = 0 then .X else .O

/-- `isValidMove`: bounds, then occupancy (skipped in infinite mode),
then turn. -/
def isValidMove (e : Engine) (row col : Int) (player : Player) : Bool :=
  if row < 0 ∨ (e.boardSize : Int) ≤ row ∨ col < 0 ∨ (e.boardSize : Int) ≤ col then
    false
  else if e.infiniteMode = false ∧ cellAt e.board row col ≠ none then
    false
  else if player ≠ getCurrentPlayer e then
    false
  else
    true

/-- `removeOldestPiece`: clear the first `placedOrder` entry of `player`,
drop every entry with the same coordinates and player, decrement the
player's placed count.  No entry found means no change. -/
def removeOldestPiece (e : Engine) (player : Player) : Engine :=
  match e.placedOrder.find? (fun pl => pl.player = player) with
  | none => e
  | some placed =>
    { e with
      board := setCell e.board placed.row placed.col none
      placedOrder := e.placedOrder.filter
        (fun p => ¬(p.row = placed.row ∧ p.col = placed.col ∧ p.player = player))
      playerXPlacedCount :=
        if player = .X then e.playerXPlacedCount - 1 else e.playerXPlacedCount
      playerOPlacedCount :=
        if player = .O then e.playerOPlacedCount - 1 else e.playerOPlacedCount }

/-- The piece cap used by infinite (rolling) mode. -/
def maxPieces (e : Engine) : Int :=
  if e.boardSize = 3 then 3 else 4

/-- `makeMove`: validate; in infinite mode evict the oldest piece when the
mover is at the cap; place; record.  Returns the JS boolean and the new
state. -/
def makeMove (e : Engine) (row col : Int) (player : Player) (timestamp : Nat) :
    Bool × Engine :=
  if isValidMove e row col player = false then
    (false, e)
  else
    let e1 :=
      if e.infiniteMode then
        let playerCount :=
          if player = .X then e.playerXPlacedCount else e.playerOPlacedCount
        if maxPieces e ≤ playerCount then removeOldestPiece e player else e
      else e
    (true,
      { e1 with
        board := setCell e1.board row col (some player)
        playerXPlacedCount :=
          if player = .X then e1.playerXPlacedCount + 1 else e1.playerXPlacedCount
        playerOPlacedCount :=
          if player = .O then e1.playerOPlacedCount + 1 else e1.playerOPlacedCount
        placedOrder := e1.placedOrder ++ [⟨player, row, col⟩]
        moveHistory := e1.moveHistory ++ [⟨row, col, player, timestamp⟩] })

/-- One step of the `checkDirection` loop: position `start + i·delta` is in
bounds and holds `player`. -/
def dirHit (n : Nat) (b : Board) (p : Player) (sr sc dr dc : Int) (i : Nat) : Bool :=
  let r := sr + dr * i
  let c := sc + dc * i
  decide (0 ≤ r) && decide (r < (n : Int)) && decide (0 ≤ c) && decide (c < (n : Int)) &&
    (cellAt b r c == some p)

/-- `checkDirection`: the loop counts consecutive hits and breaks at the
first miss; the count equals `winCondition` iff the run of hits spans the
whole range. -/
def checkDirection (n w : Nat) (b : Board) (sr sc dr dc : Int) (p : Player) : Bool :=
  ((List.range w).takeWhile (fun i => dirHit n b p sr sc dr dc i)).length = w

/-- Row-major list of all board coordinates, as scanned by the `getWinner`
double loop. -/
def positions (n : Nat) : List (Nat × Nat) :=
  (List.range n).flatMap (fun r => (List.range n).map (fun c => (r, c)))

/-- `getWinner`: scan every cell row-major; for an occupied cell try the
four directions → ↓ ↘ ↙ in order; first hit wins. -/
def getWinner (n w : Nat) (b : Board) : Option Player :=
  (positions n).findSome? (fun rc =>
    match cellNat b rc.1 rc.2 with
    | none => none
    | some player =>
      if checkDirection n w b rc.1 rc.2 0 1 player then some player
      else if checkDirection n w b rc.1 rc.2 1 0 player then some player
      else if checkDirection n w b rc.1 rc.2 1 1 player then some player
      else if checkDirection n w b rc.1 rc.2 1 (-1) player then some player
      else none)

/-- The direction list used by `getWinningLine` (and BotAI's scans). -/
def dirs4 : List (Int × Int) := [(0, 1), (1, 0), (1, 1), (1, -1)]

/-- `getWinningLineInDirection`: the loop pushes `winCondition` coordinates
and returns null at the first miss. -/
def getWinningLineInDirection (n w : Nat) (b : Board) (sr sc dr dc : Int)
    (p : Player) : Option (List (Int × Int)) :=
  if (List.range w).all (fun i => dirHit n b p sr sc dr dc i) then
    some ((List.range w).map (fun (i : Nat) => (sr + dr * (i : Int), sc + dc * (i : Int))))
  else
    none

/-- `getWinningLine`: null when there is no winner, else scan the winner's
cells and directions for a complete line. -/
def getWinningLine (n w : Nat) (b : Board) : Option (List (Int × Int)) :=
  match getWinner n w b with
  | none => none
  | some winner =>
    (positions n).findSome? (fun rc =>
      if cellNat b rc.1 rc.2 = some winner then
        dirs4.findSome? (fun d =>
          getWinningLineInDirection n w b rc.1 rc.2 d.1 d.2 winner)
      else none)

/-- The board-full scan of `isDraw`. -/
def boardFull (n : Nat) (b : Board) : Bool :=
  (positions n).all (fun rc => cellNat b rc.1 rc.2 ≠ none)

/-- `isDraw`: false when someone won or in infinite mode, else board full. -/
def isDraw (e : Engine) : Bool :=
  if getWinner e.boardSize e.winCondition e.board ≠ none then false
  else if e.infiniteMode then false
  else boardFull e.boardSize e.board

/-- `getGameStatus`: FINISHED when won, DRAW when drawn, else ACTIVE. -/
def getGameStatus (e : Engine) : GameStatus :=
  if getWinner e.boardSize e.winCondition e.board ≠ none then .FINISHED
  else if isDraw e then .DRAW
  else .ACTIVE

/-- `undo`: pop the last move, clear its cell, decrement the mover's count,
drop every matching placement entry.  False on empty history. -/
def undo (e : Engine) : Bool × Engine :=
  match e.moveHistory.getLast? with
  | none => (false, e)
  | some lastMove =>
    (true,
      { e with
        moveHistory := e.moveHistory.dropLast
        board := setCell e.board lastMove.row lastMove.col none
        playerXPlacedCount :=
          if lastMove.player = .X then e.playerXPlacedCount - 1
          else e.playerXPlacedCount
        playerOPlacedCount :=
          if lastMove.player = .O then e.playerOPlacedCount - 1
          else e.playerOPlacedCount
        placedOrder := e.placedOrder.filter
          (fun p => ¬(p.row = lastMove.row ∧ p.col = lastMove.col ∧
            p.player = lastMove.player)) })

/-! ## BotAI (engines/BotAI.ts)

`BotAI.checkDirection` is line-for-line the engine's `checkDirection`, so
it is shared; `BotAI.checkWinner` differs from the engine's `getWinner`
only in looping over a direction list instead of four unrolled ifs. -/

/-- `BotAI.checkWinner`: scan every cell row-major, try the four
directions in order, first hit wins. -/
def botCheckWinner (n w : Nat) (b : Board) : Option Player :=
  (positions n).findSome? (fun rc =>
    match cellNat b rc.1 rc.2 with
    | none => none
    | some player =>
      if dirs4.any (fun d => checkDirection n w b rc.1 rc.2 d.1 d.2 player) then
        some player
      else none)

/-- `BotAI.getValidMoves`: the empty cells, row-major. -/
def botValidMoves (n : Nat) (b : Board) : List (Nat × Nat) :=
  (positions n).filter (fun rc => cellNat b rc.1 rc.2 = none)

/-- `BotAI.isBoardFull`. -/
def isBoardFull (n : Nat) (b : Board) : Bool :=
  (positions n).all (fun rc => cellNat b rc.1 rc.2 ≠ none)

/-- Stand-in for the JS `Infinity` used to seed alpha/beta and the best
score; every real minimax score lies in `[-10, 10]`, so any bound above
`10` gives identical comparisons. -/
def INF : Int := 1000

/-- The move loop of `BotAI.minimax`: try each move, recurse with the
current alpha/beta, keep the strictly best score, tighten alpha (or beta)
and break when `beta ≤ alpha`.  `recur` is the recursive call at
`depth + 1` with the flipped player. -/
def abLoop (recur : Board → Int → Int → (Int × Int) × Int) (b : Board)
    (sym : Player) (isMax : Bool) :
    List (Nat × Nat) → Int → Int → (Int × Int) × Int → (Int × Int) × Int
  | [], _, _, best => best
  | mv :: rest, alpha, beta, best =>
    let b' := setCell b mv.1 mv.2 (some sym)
    let result := recur b' alpha beta
    if isMax then
      let best' := if best.2 < result.2 then (((mv.1 : Int), (mv.2 : Int)), result.2) else best
      let alpha' := max alpha result.2
      if beta ≤ alpha' then best'
      else abLoop recur b sym isMax rest alpha' beta best'
    else
      let best' := if result.2 < best.2 then (((mv.1 : Int), (mv.2 : Int)), result.2) else best
      let beta' := min beta result.2
      if beta' ≤ alpha then best'
      else abLoop recur b sym isMax rest alpha beta' best'

/-- `BotAI.minimax` with alpha-beta pruning.  The source's
`{row, col, score}` object is the pair (move, score); terminal returns use
the `(-1, -1)` sentinel.  `fuel` bounds the recursion depth; every call
below places a piece, so `n*n + 1` fuel never runs out. -/
def minimax (bp : Player) (n w : Nat) :
    Nat → Board → Nat → Bool → Int → Int → (Int × Int) × Int
  | 0, _, _, _, _, _ => ((-1, -1), 0)
  | fuel + 1, b, depth, isMax, alpha, beta =>
    let winner := botCheckWinner n w b
    if winner = some bp then ((-1, -1), (10 : Int) - depth)
    else if winner = some bp.other then ((-1, -1), (depth : Int) - 10)
    else if isBoardFull n b then ((-1, -1), 0)
    else
      match botValidMoves n b with
      | [] => ((-1, -1), 0)
      | mv :: rest =>
        abLoop
          (fun b' a z => minimax bp n w fuel b' (depth + 1) (!isMax) a z)
          b (if isMax then bp else bp.other) isMax (mv :: rest) alpha beta
          ((-1, -1), if isMax then -INF else INF)

/-- `BotAI.minimaxMove` at difficulty hard: the root call
`minimax(board, 0, true)` with the default `±Infinity` window. -/
def minimaxHardMove (bp : Player) (n w : Nat) (b : Board) : Int × Int :=
  (minimax bp n w (n * n + 1) b 0 true (-INF) INF).1

/-- The game played by claim C8: from `b`, the bot (symbol `bp`) plays its
hard minimax move on each of its turns, the opponent plays any empty
cell; the position is safe when every play-out ends without an opponent
win (adjudicated by the engine's `getWinner`). -/
def botSafe (bp : Player) (n w : Nat) : Nat → Board → Bool → Bool
  | 0, _, _ => false
  | fuel + 1, b, isBotTurn =>
    match getWinner n w b with
    | some wn => wn ≠ bp.other
    | none =>
      if isBoardFull n b then true
      else if isBotTurn then
        let mv := minimaxHardMove bp n w b
        botSafe bp n w fuel (setCell b mv.1 mv.2 (some bp)) false
      else
        (botValidMoves n b).all (fun mv =>
          botSafe bp n w fuel (setCell b mv.1 mv.2 (some bp.other)) true)

/-! ## EscrowService (server/src/modules/game/escrow.service.ts) -/

/-- Escrow status: `'pending' | 'active' | 'completed' | 'refunded'`. -/
inductive EscrowStatus where
  | pending
  | active
  | completed
  | refunded
deriving DecidableEq, Repr

/-- `EscrowEntry` of escrow.service.ts. -/
structure EscrowEntry where
  roomId : String
  playerX : String
  playerO : String
  amountLamports : Nat
  playerXPaid : Bool
  playerOPaid : Bool
  playerXSignature : Option String
  playerOSignature : Option String
  status : EscrowStatus
  createdAt : Nat
deriving DecidableEq, Repr

/-- The `escrows : Map<string, EscrowEntry>` field, as an association list. -/
abbrev EscrowMap := List (String × EscrowEntry)

def mapLookup (m : List (String × α)) (k : String) : Option α :=
  (m.find? (fun kv => kv.1 = k)).map (fun kv => kv.2)

/-- JS `Map.set`: replace the binding when the key exists, else append. -/
def mapSet (m : List (String × α)) (k : String) (v : α) : List (String × α) :=
  if (m.find? (fun kv => kv.1 = k)).isSome then
    m.map (fun kv => if kv.1 = k then (k, v) else kv)
  else
    m ++ [(k, v)]

/-- JS `Map.delete`. -/
def mapDelete (m : List (String × α)) (k : String) : List (String × α) :=
  m.filter (fun kv => kv.1 ≠ k)

/-- `getEntryFee`, in lamports.  The source computes `0.00099 *
LAMPORTS_PER_SOL` etc.; those double products are exactly the integers
below. -/
def getEntryFee (mode : String) : Nat :=
  if mode = "RANKED_IRON" then 990000
  else if mode = "RANKED_NEON" then 1990000
  else if mode = "WHALE_WARS" then 2990000
  else 0

/-- The external-chain facts an escrow operation consults: whether the
treasury keypair/wallet were loaded at startup, the treasury balance, and
whether a submitted transfer confirms. -/
structure ChainEnv where
  treasuryLoaded : Bool
  treasuryBalance : Nat
  transferOk : Bool
deriving DecidableEq, Repr

/-- `createEscrow`: unconditional `Map.set` of a fresh pending record. -/
def createEscrow (m : EscrowMap) (roomId playerX playerO mode : String)
    (now : Nat) : EscrowMap :=
  mapSet m roomId
    { roomId := roomId
      playerX := playerX
      playerO := playerO
      amountLamports := getEntryFee mode
      playerXPaid := false
      playerOPaid := false
      playerXSignature := none
      playerOSignature := none
      status := .pending
      createdAt := now }

/-- The `{success, error?, allPaid?}` result of `recordPayment`. -/
structure RecordPaymentResult where
  success : Bool
  error : Option String
  allPaid : Option Bool
deriving DecidableEq, Repr

/-- `recordPayment`: requires a pending record and an unpaid slot for the
player; marks it paid; activates when both slots are paid. -/
def recordPayment (m : EscrowMap) (roomId playerId signature : String) :
    EscrowMap × RecordPaymentResult :=
  match mapLookup m roomId with
  | none => (m, ⟨false, some "Escrow not found", none⟩)
  | some escrow =>
    if escrow.status ≠ .pending then
      (m, ⟨false, some "Escrow already processed", none⟩)
    else if playerId = escrow.playerX then
      if escrow.playerXPaid then
        (m, ⟨false, some "Player X already paid", none⟩)
      else
        let e1 := { escrow with playerXPaid := true, playerXSignature := some signature }
        let allPaid := e1.playerXPaid && e1.playerOPaid
        let e2 := if allPaid then { e1 with status := .active } else e1
        (mapSet m roomId e2, ⟨true, none, some allPaid⟩)
    else if playerId = escrow.playerO then
      if escrow.playerOPaid then
        (m, ⟨false, some "Player O already paid", none⟩)
      else
        let e1 := { escrow with playerOPaid := true, playerOSignature := some signature }
        let allPaid := e1.playerXPaid && e1.playerOPaid
        let e2 := if allPaid then { e1 with status := .active } else e1
        (mapSet m roomId e2, ⟨true, none, some allPaid⟩)
    else
      (m, ⟨false, some "Player not in escrow", none⟩)

/-- Observable outcome of `refundOnDisconnect`; the source returns a
signature string or null, and the issued transfer (recipient, lamports) is
the observable side effect a result carries here. -/
inductive RefundResult where
  /-- escrow missing: null. -/
  | noEscrow
  /-- status already completed/refunded: null. -/
  | alreadyProcessed
  /-- treasury keypair unavailable: null. -/
  | noTreasury
  /-- `refundAmount === 0` path: status set to refunded, null, no transfer. -/
  | noRefundNeeded
  /-- treasury balance below the refund: null, no state change. -/
  | insufficientBalance
  /-- transfer submission threw: null, no state change. -/
  | transferError
  /-- transfer confirmed: signature returned, status refunded. -/
  | refunded (recipient : String) (amount : Nat)
deriving DecidableEq, Repr

/-- `refundOnDisconnect`, translated clause by clause.  Note the source
computes `refundAmount` from the *disconnected* player's paid flag while
the recipient `refundPlayer` is the *other* player. -/
def refundOnDisconnect (env : ChainEnv) (m : EscrowMap)
    (roomId disconnectedPlayerId : String) : EscrowMap × RefundResult :=
  match mapLookup m roomId with
  | none => (m, .noEscrow)
  | some escrow =>
    if escrow.status ≠ .pending ∧ escrow.status ≠ .active then
      (m, .alreadyProcessed)
    else if env.treasuryLoaded = false then
      (m, .noTreasury)
    else
      let refundPlayer :=
        if disconnectedPlayerId = escrow.playerX then escrow.playerO else escrow.playerX
      let refundAmount :=
        if disconnectedPlayerId = escrow.playerX ∧ escrow.playerXPaid then
          (if escrow.playerXSignature.isSome then escrow.amountLamports else 0)
        else if disconnectedPlayerId = escrow.playerO ∧ escrow.playerOPaid then
          (if escrow.playerOSignature.isSome then escrow.amountLamports else 0)
        else 0
      if refundAmount = 0 then
        (mapSet m roomId { escrow with status := .refunded }, .noRefundNeeded)
      else if env.treasuryBalance < refundAmount then
        (m, .insufficientBalance)
      else if env.transferOk = false then
        (m, .transferError)
      else
        (mapSet m roomId { escrow with status := .refunded },
          .refunded refundPlayer refundAmount)

/-- Observable outcome of `payoutWinner`. -/
inductive PayoutResult where
  /-- escrow missing: null. -/
  | noEscrow
  /-- status is not `active`: null, no state change. -/
  | notActive
  /-- treasury keypair unavailable: null. -/
  | noTreasury
  /-- treasury balance below the winner amount: null, no state change. -/
  | insufficientBalance
  /-- winner-path transfer submission threw: null, no state change. -/
  | transferError
  /-- winner paid `amount`; status completed. -/
  | paid (recipient : String) (amount : Nat)
  /-- draw path: per-player stake refunds issued (best effort), status
  completed regardless. -/
  | drawSettled (transfers : List (String × Nat))
deriving DecidableEq, Repr

/-- `payoutWinner`: pot = 2×fee, platform fee = floor of 10% of the pot,
winner gets the rest; a draw refunds each paid player's stake. -/
def payoutWinner (env : ChainEnv) (m : EscrowMap) (roomId : String)
    (winner : Option Player) : EscrowMap × PayoutResult :=
  match mapLookup m roomId with
  | none => (m, .noEscrow)
  | some escrow =>
    if escrow.status ≠ .active then
      (m, .notActive)
    else if env.treasuryLoaded = false then
      (m, .noTreasury)
    else
      let totalPot := escrow.amountLamports * 2
      let platformFee := totalPot / 10
      let winnerAmount := totalPot - platformFee
      match winner with
      | none =>
        let refundAmount := escrow.amountLamports
        let refundX := escrow.playerXPaid && escrow.playerXSignature.isSome
        let refundO := escrow.playerOPaid && escrow.playerOSignature.isSome
        let transfers :=
          (if refundX && env.transferOk then [(escrow.playerX, refundAmount)] else []) ++
          (if refundO && env.transferOk then [(escrow.playerO, refundAmount)] else [])
        (mapSet m roomId { escrow with status := .completed }, .drawSettled transfers)
      | some w =>
        let winnerAddress := if w = .X then escrow.playerX else escrow.playerO
        if env.treasuryBalance < winnerAmount then
          (m, .insufficientBalance)
        else if env.transferOk = false then
          (m, .transferError)
        else
          (mapSet m roomId { escrow with status := .completed },
            .paid winnerAddress winnerAmount)

/-- `cleanupOldEscrows`: drop records older than one hour that are not
active. -/
def cleanupOldEscrows (m : EscrowMap) (now : Nat) : EscrowMap :=
  let oneHourAgo := now - 60 * 60 * 1000
  m.filter (fun kv => ¬(kv.2.createdAt < oneHourAgo ∧ kv.2.status ≠ .active))

/-- One state-mutating call into the escrow service. -/
inductive EscrowOp where
  | create (roomId playerX playerO mode : String) (now : Nat)
  | record (roomId playerId signature : String)
  | refund (env : ChainEnv) (roomId disconnectedPlayerId : String)
  | payout (env : ChainEnv) (roomId : String) (winner : Option Player)
  | cleanup (now : Nat)
deriving DecidableEq, Repr

/-- The map after one escrow operation. -/
def escrowStep (m : EscrowMap) : EscrowOp → EscrowMap
  | .create roomId playerX playerO mode now => createEscrow m roomId playerX playerO mode now
  | .record roomId playerId signature => (recordPayment m roomId playerId signature).1
  | .refund env roomId pid => (refundOnDisconnect env m roomId pid).1
  | .payout env roomId winner => (payoutWinner env m roomId winner).1
  | .cleanup now => cleanupOldEscrows m now

/-! ## GameService (server/src/modules/game/game.service.ts) -/

/-- Room status on the server: `'WAITING' | 'ACTIVE' | 'FINISHED'`. -/
inductive RoomStatus where
  | WAITING
  | ACTIVE
  | FINISHED
deriving DecidableEq, Repr

/-- The Room document fields `joinRoom` touches. -/
structure Room where
  roomId : String
  mode : String
  players : List String
  status : RoomStatus
deriving DecidableEq, Repr

/-- `getGameConfig`: the fixed mode → config table (unknown modes fall
back to TRAINING). -/
def getGameConfig (mode : String) : GameConfig :=
  if mode = "TRAINING" then ⟨"TRAINING", 3, 3, true⟩
  else if mode = "BOT_BATTLE" then ⟨"BOT_BATTLE", 6, 4, false⟩
  else if mode = "RANKED_IRON" then ⟨"RANKED_IRON", 3, 3, true⟩
  else if mode = "RANKED_NEON" then ⟨"RANKED_NEON", 6, 4, false⟩
  else if mode = "WHALE_WARS" then ⟨"WHALE_WARS", 8, 5, false⟩
  else ⟨"TRAINING", 3, 3, true⟩

/-- The GameService state `joinRoom` reads and writes: the persisted rooms
and the in-memory `activeGames` engines. -/
structure GameSvc where
  rooms : List (String × Room)
  activeGames : List (String × Engine)
deriving DecidableEq, Repr

/-- `joinRoom`: absent room fails; a full room fails (checked before
membership); a member of a non-full room succeeds unchanged; otherwise the
player is appended, and a second distinct join activates the room and
instantiates an engine from the room's config. -/
def joinRoom (s : GameSvc) (roomId playerId : String) : Bool × GameSvc :=
  match mapLookup s.rooms roomId with
  | none => (false, s)
  | some room =>
    if 2 ≤ room.players.length then
      (false, s)
    else if playerId ∈ room.players then
      (true, s)
    else
      let players := room.players ++ [playerId]
      if players.length = 2 then
        (true,
          { rooms := mapSet s.rooms roomId
              { room with players := players, status := .ACTIVE }
            activeGames := mapSet s.activeGames roomId
              (initEngine (getGameConfig room.mode)) })
      else
        (true,
          { s with rooms := mapSet s.rooms roomId { room with players := players } })

/-! ## Basic facts about the engine's move validation -/

/-- Unfolding of `isValidMove`: in bounds, cell free unless in infinite
mode, and the mover is the parity-determined current player. -/
theorem isValidMove_eq_true_iff (e : Engine) (row col : Int) (p : Player) :
    isValidMove e row col p = true ↔
      (0 ≤ row ∧ row < (e.boardSize : Int) ∧ 0 ≤ col ∧ col < (e.boardSize : Int)) ∧
      (e.infiniteMode = true ∨ cellAt e.board row col = none) ∧
      p = getCurrentPlayer e := by
  unfold isValidMove
  split_ifs with h1 h2 h3
  · simp only [false_iff]
    rintro ⟨⟨hr0, hrn, hc0, hcn⟩, -, -⟩
    rcases h1 with h | h | h | h <;> omega
  · simp only [false_iff]
    rintro ⟨-, hocc, -⟩
    rcases hocc with hinf | hcell
    · rw [h2.1] at hinf; exact Bool.false_ne_true hinf
    · exact h2.2 hcell
  · simp only [false_iff]
    rintro ⟨-, -, hp⟩
    exact h3 hp
  · simp only [true_iff]
    push_neg at h1 h2 h3
    refine ⟨h1, ?_, h3⟩
    rcases Bool.eq_false_or_eq_true e.infiniteMode with hm | hm
    · exact Or.inl hm
    · exact Or.inr (h2 hm)

/-- C4: a wrong-parity mover is always rejected with the state unchanged,
regardless of occupancy; a correct-parity mover is never rejected on turn
grounds (an in-bounds move onto a cell that is free, or any cell in
infinite mode, validates). -/
theorem makeMove_turn_parity (e : Engine) (row col : Int) (p : Player) (ts : Nat) :
    (p ≠ getCurrentPlayer e → makeMove e row col p ts = (false, e)) ∧
    (p = getCurrentPlayer e →
      (0 ≤ row ∧ row < (e.boardSize : Int) ∧ 0 ≤ col ∧ col < (e.boardSize : Int)) →
      (e.infiniteMode = true ∨ cellAt e.board row col = none) →
      isValidMove e row col p = true) := by
  constructor
  · intro hp
    have hv : isValidMove e row col p = false := by
      rcases Bool.eq_false_or_eq_true (isValidMove e row col p) with h | h
      · exact absurd ((isValidMove_eq_true_iff e row col p).1 h).2.2 hp
      · exact h
    unfold makeMove
    rw [hv]
    simp
  · intro hp hb hc
    exact (isValidMove_eq_true_iff e row col p).2 ⟨hb, hc, hp⟩

/-- Witness for C4 at concrete inputs: on a fresh 3×3 board it is X's
turn, so an O move is rejected unchanged, and X's in-bounds move onto a
free cell validates. -/
theorem makeMove_turn_parity_spot :
    makeMove (initEngine ⟨"TRAINING", 3, 3, true⟩) 0 0 .O 0 =
      (false, initEngine ⟨"TRAINING", 3, 3, true⟩) ∧
    isValidMove (initEngine ⟨"TRAINING", 3, 3, true⟩) 0 0 .X = true := by
  refine ⟨(makeMove_turn_parity (initEngine ⟨"TRAINING", 3, 3, true⟩) 0 0 .O 0).1
    (by decide), (makeMove_turn_parity (initEngine ⟨"TRAINING", 3, 3, true⟩) 0 0 .X 0).2
    (by decide) (by decide) (by decide)⟩

/-- C7: the reported status is DRAW exactly when there is no winner, the
board is full, and infinite (rolling) mode is off; hence a rolling-mode
engine never reports DRAW. -/
theorem status_draw_iff (e : Engine) :
    getGameStatus e = .DRAW ↔
      (getWinner e.boardSize e.winCondition e.board = none ∧
        boardFull e.boardSize e.board = true ∧ e.infiniteMode = false) := by
  rcases hw : getWinner e.boardSize e.winCondition e.board with _ | p <;>
    rcases hm : e.infiniteMode with _ | _ <;>
      rcases hf : boardFull e.boardSize e.board with _ | _ <;>
        simp [getGameStatus, isDraw, hw, hm, hf]

/-! ## Board update lemmas -/

theorem list_set_self_of_getD {α : Type} :
    ∀ (l : List α) (i : Nat) (w : α), l.getD i w = w → l.set i w = l
  | [], _, _, _ => rfl
  | a :: t, 0, w, h => by simp only [List.getD_cons_zero] at h; simp [h]
  | a :: t, i + 1, w, h => by
    simp only [List.getD_cons_succ] at h
    simp [List.set_cons_succ, list_set_self_of_getD t i w h]

theorem list_getD_getD {α : Type} (l : List α) (i : Nat) (d : α) :
    l.getD i (l.getD i d) = l.getD i d := by
  simp only [List.getD_eq_getElem?_getD]
  cases l[i]? <;> simp

/-- Writing `v` and then writing back the old value of an empty cell
restores the board. -/
theorem setCell_setCell_cancel (b : Board) (r c : Int) (v : Cell)
    (h : cellAt b r c = none) : setCell (setCell b r c v) r c none = b := by
  unfold setCell cellAt cellNat at *
  set rn := r.toNat with hrn
  set cn := c.toNat with hcn
  rcases lt_or_le rn b.length with hr | hr
  · have hrow : (b.set rn ((b.getD rn []).set cn v)).getD rn [] =
        (b.getD rn []).set cn v := by
      rw [List.getD_eq_getElem _ _ (by simpa using hr)]
      simp [List.getElem_set_self (by simpa using hr)]
    rw [hrow, List.set_set, List.set_set, list_set_self_of_getD _ _ _ h]
    exact list_set_self_of_getD b rn _ (list_getD_getD b rn [])
  · have hX : b.set rn ((b.getD rn []).set cn v) = b := List.set_eq_of_length_le hr
    rw [hX]
    exact List.set_eq_of_length_le hr

/-! ## C10: undo after makeMove -/

/-- A non-rolling engine state whose placement record already holds an
entry for X at (0,0) although the cell is empty (unreachable in play, but
a legal value of the state type). -/
def undoCexEngine : Engine :=
  { boardSize := 3
    winCondition := 3
    infiniteMode := false
    board := createEmptyBoard 3
    playerXPlacedCount := 0
    playerOPlacedCount := 0
    moveHistory := []
    placedOrder := [⟨.X, 0, 0⟩] }

/-- C10 counterexample: on a state with a stale duplicate placement entry,
a successful non-rolling `makeMove` followed by `undo` is not the
identity — the `undo` filter drops both matching placement entries. -/
theorem undo_not_inverse_on_stale_state :
    (makeMove undoCexEngine 0 0 .X 0).1 = true ∧
    (undo (makeMove undoCexEngine 0 0 .X 0).2).2 ≠ undoCexEngine := by decide

/-- C10 amended: on a non-rolling state whose placement record has no
entry matching the move about to be made (true of every state reachable
in play), a successful `makeMove` followed by `undo` returns true and
restores the exact engine state. -/
theorem undo_cancels_makeMove (e : Engine) (row col : Int) (p : Player) (ts : Nat)
    (hmode : e.infiniteMode = false)
    (hdup : ∀ pl ∈ e.placedOrder, ¬(pl.row = row ∧ pl.col = col ∧ pl.player = p))
    (hs : (makeMove e row col p ts).1 = true) :
    undo (makeMove e row col p ts).2 = (true, e) := by
  have hv : isValidMove e row col p = true := by
    by_contra h
    have hf : isValidMove e row col p = false := by
      cases hiv : isValidMove e row col p
      · rfl
      · exact absurd hiv h
    unfold makeMove at hs
    rw [if_pos hf] at hs
    cases hs
  have hempty : cellAt e.board row col = none := by
    rcases ((isValidMove_eq_true_iff e row col p).1 hv).2.1 with hinf | hc
    · rw [hmode] at hinf; cases hinf
    · exact hc
  have hmm : makeMove e row col p ts =
      (true,
        { e with
          board := setCell e.board row col (some p)
          playerXPlacedCount :=
            if p = .X then e.playerXPlacedCount + 1 else e.playerXPlacedCount
          playerOPlacedCount :=
            if p = .O then e.playerOPlacedCount + 1 else e.playerOPlacedCount
          placedOrder := e.placedOrder ++ [⟨p, row, col⟩]
          moveHistory := e.moveHistory ++ [⟨row, col, p, ts⟩] }) := by
    unfold makeMove
    rw [if_neg (by simp [hv])]
    simp only [hmode, Bool.false_eq_true, if_false]
  rw [hmm]
  unfold undo
  simp only [List.getLast?_concat]
  have hfilter : (e.placedOrder ++ [(⟨p, row, col⟩ : Placed)]).filter
      (fun q => decide ¬(q.row = row ∧ q.col = col ∧ q.player = p)) =
      e.placedOrder := by
    rw [List.filter_append]
    have h1 : e.placedOrder.filter
        (fun q => decide ¬(q.row = row ∧ q.col = col ∧ q.player = p)) =
        e.placedOrder :=
      List.filter_eq_self.mpr (fun pl hpl => by
        simp only [decide_eq_true_eq]
        exact hdup pl hpl)
    have h2 : ([(⟨p, row, col⟩ : Placed)]).filter
        (fun q => decide ¬(q.row = row ∧ q.col = col ∧ q.player = p)) = [] := by
      simp
    rw [h1, h2, List.append_nil]
  simp only [List.dropLast_concat, setCell_setCell_cancel _ _ _ _ hempty, hfilter]
  cases e with
  | mk bs wc im bd xc oc mh po =>
    cases p <;> simp

/-- Witness for C10's amended theorem: on a fresh non-rolling 6×6 engine,
makeMove at (0,0) succeeds and undo restores the initial state. -/
theorem undo_cancels_makeMove_spot :
    undo (makeMove (initEngine ⟨"BOT_BATTLE", 6, 4, false⟩) 0 0 .X 5).2 =
      (true, initEngine ⟨"BOT_BATTLE", 6, 4, false⟩) :=
  undo_cancels_makeMove (initEngine ⟨"BOT_BATTLE", 6, 4, false⟩) 0 0 .X 5 rfl
    (by simp [initEngine]) (by decide)

/-! ## C1: refundOnDisconnect checks the wrong player's paid flag -/

/-- A pending escrow where player X ("A") has paid and player O ("B") has
not. -/
def c1Escrow : EscrowEntry :=
  { roomId := "room1"
    playerX := "A"
    playerO := "B"
    amountLamports := 990000
    playerXPaid := true
    playerOPaid := false
    playerXSignature := some "sigA"
    playerOSignature := none
    status := .pending
    createdAt := 0 }

def c1Env : ChainEnv := ⟨true, 10000000, true⟩

/-- C1: the code computes the refund amount from the *disconnected*
player's paid flag while sending to the other player.  When the unpaid
player B disconnects, the paid player A gets no transfer and the record is
burned to `refunded`; when the paid player A disconnects, A's stake is
transferred to B, who never paid.  Both contradict "transfer to the
non-disconnected player iff that player paid". -/
theorem refund_checks_wrong_player :
    refundOnDisconnect c1Env [("room1", c1Escrow)] "room1" "B" =
      ([("room1", { c1Escrow with status := .refunded })], .noRefundNeeded) ∧
    refundOnDisconnect c1Env [("room1", c1Escrow)] "room1" "A" =
      ([("room1", { c1Escrow with status := .refunded })], .refunded "B" 990000) := by
  constructor <;> rfl

/-! ## C2: payout arithmetic -/

/-- C2: from an `active` record with per-player fee F, with the treasury
signer loaded, a sufficient balance, and the transfer confirming, payout
transfers to the winner's address exactly `2F - (2F)/10` (floored), and
`(2F)/10 = F/5`, i.e. the floored 10% of the pot equals the floored 0.2F
of the claim. -/
theorem payout_amount (env : ChainEnv) (m : EscrowMap) (roomId : String)
    (w : Player) (es : EscrowEntry)
    (hm : mapLookup m roomId = some es)
    (hst : es.status = .active)
    (htr : env.treasuryLoaded = true)
    (hbal : es.amountLamports * 2 - es.amountLamports * 2 / 10 ≤ env.treasuryBalance)
    (hok : env.transferOk = true) :
    (payoutWinner env m roomId (some w)).2 =
      .paid (if w = .X then es.playerX else es.playerO)
        (es.amountLamports * 2 - es.amountLamports * 2 / 10) ∧
    es.amountLamports * 2 / 10 = es.amountLamports / 5 := by
  constructor
  · unfold payoutWinner
    rw [hm]
    simp only [hst, htr, hok, ne_eq, not_true_eq_false, if_false,
      Bool.true_eq_false, Nat.not_lt.mpr hbal]
  · have h2 : es.amountLamports * 2 / 10 = 2 * es.amountLamports / (2 * 5) := by
      rw [Nat.mul_comm]
    rw [h2, Nat.mul_div_mul_left _ _ (by norm_num)]

/-- Witness for C2 at a concrete active record: fee 990000, winner O, so
the payout is 1980000 − 198000 = 1782000 to player O's address. -/
def c2Escrow : EscrowEntry :=
  ⟨"room2", "AX", "BO", 990000, true, true, some "s1", some "s2", .active, 0⟩

theorem payout_amount_spot :
    (payoutWinner ⟨true, 10000000, true⟩ [("room2", c2Escrow)] "room2"
      (some .O)).2 = .paid "BO" 1782000 := by
  have h := payout_amount ⟨true, 10000000, true⟩ [("room2", c2Escrow)] "room2"
    .O c2Escrow rfl rfl rfl (by norm_num [c2Escrow]) rfl
  simpa using h.1

/-! ## C9: joinRoom -/

def c9Svc : GameSvc :=
  { rooms := [("r", ⟨"r", "TRAINING", ["A", "B"], .ACTIVE⟩)]
    activeGames := [] }

/-- C9 counterexample: the room-full check precedes the membership check,
so a player who is already a member of a 2-player room gets `false`, where
the claim requires an idempotent success. -/
theorem joinRoom_full_rejects_member :
    joinRoom c9Svc "r" "A" = (false, c9Svc) := rfl

/-- C9 amended: `joinRoom` fails on an absent room; fails on any room
that already has 2 players, member or not; succeeds without change when
the player is already a member of a room with fewer than 2 players; and
on the second distinct join appends the player, marks the room ACTIVE and
instantiates an engine from the room's config. -/
theorem joinRoom_spec (s : GameSvc) (roomId pid : String) :
    (mapLookup s.rooms roomId = none → joinRoom s roomId pid = (false, s)) ∧
    (∀ room, mapLookup s.rooms roomId = some room →
      (2 ≤ room.players.length → joinRoom s roomId pid = (false, s)) ∧
      (room.players.length < 2 → pid ∈ room.players →
        joinRoom s roomId pid = (true, s)) ∧
      (room.players.length = 1 → pid ∉ room.players →
        joinRoom s roomId pid = (true,
          { rooms := mapSet s.rooms roomId
              { room with players := room.players ++ [pid], status := .ACTIVE }
            activeGames := mapSet s.activeGames roomId
              (initEngine (getGameConfig room.mode)) }))) := by
  refine ⟨fun hnone => ?_, fun room hroom => ⟨fun hfull => ?_, fun hlt hmem => ?_,
    fun hone hnot => ?_⟩⟩
  · unfold joinRoom
    rw [hnone]
  · unfold joinRoom
    rw [hroom]
    simp only [if_pos hfull]
  · unfold joinRoom
    rw [hroom]
    simp only [if_neg (show ¬2 ≤ room.players.length by omega), if_pos hmem]
  · unfold joinRoom
    rw [hroom]
    simp only [if_neg (show ¬2 ≤ room.players.length by omega), if_neg hnot,
      if_pos (show (room.players ++ [pid]).length = 2 by simp [hone])]

/-- Witness for C9's amended clauses at concrete inputs: joining an
absent room fails; a second distinct join of a one-player TRAINING room
succeeds, activates the room and creates the engine. -/
def c9SvcOne : GameSvc :=
  { rooms := [("r", ⟨"r", "TRAINING", ["A"], .WAITING⟩)]
    activeGames := [] }

theorem joinRoom_spec_spot :
    joinRoom { rooms := [], activeGames := [] } "nope" "A" =
      (false, { rooms := [], activeGames := [] }) ∧
    joinRoom c9SvcOne "r" "B" =
      (true,
        { rooms := [("r", ⟨"r", "TRAINING", ["A", "B"], .ACTIVE⟩)]
          activeGames := [("r", initEngine ⟨"TRAINING", 3, 3, true⟩)] }) := by
  constructor
  · exact (joinRoom_spec { rooms := [], activeGames := [] } "nope" "A").1 rfl
  · have h := ((joinRoom_spec c9SvcOne "r" "B").2
      ⟨"r", "TRAINING", ["A"], .WAITING⟩ rfl).2.2 rfl (by simp)
    rw [h]
    rfl

/-! ## C3: escrow status monotonicity -/

theorem mapLookup_cons {α : Type} (kv : String × α) (rest : List (String × α))
    (k : String) :
    mapLookup (kv :: rest) k = if kv.1 = k then some kv.2 else mapLookup rest k := by
  unfold mapLookup
  by_cases hk : kv.1 = k
  · rw [List.find?_cons_of_pos _ (by simp [hk]), if_pos hk]
    rfl
  · rw [List.find?_cons_of_neg _ (by simp [hk]), if_neg hk]

theorem mapLookup_set_self {α : Type} (m : List (String × α)) (k : String) (v : α) :
    mapLookup (mapSet m k v) k = some v := by
  unfold mapSet
  split_ifs with h
  · induction m with
    | nil => simp [List.find?] at h
    | cons kv rest ih =>
      by_cases hk : kv.1 = k
      · simp [mapLookup_cons, hk]
      · rw [List.map_cons, show ((if kv.1 = k then (k, v) else kv) : String × α) = kv
          from if_neg hk, mapLookup_cons, if_neg hk]
        exact ih (by rwa [List.find?_cons_of_neg _ (by simp [hk])] at h)
  · have hnone : m.find? (fun kv => kv.1 = k) = none := by
      cases hf : m.find? (fun kv => kv.1 = k)
      · rfl
      · rw [hf] at h; simp at h
    unfold mapLookup
    rw [List.find?_append, hnone]
    simp [List.find?]

theorem mapLookup_mapset_ne {α : Type} (m : List (String × α)) (k k' : String)
    (v : α) (h : k' ≠ k) :
    mapLookup (m.map (fun kv => if kv.1 = k then (k, v) else kv)) k' =
      mapLookup m k' := by
  induction m with
  | nil => rfl
  | cons kv rest ih =>
    by_cases hk : kv.1 = k
    · rw [List.map_cons, show ((if kv.1 = k then (k, v) else kv) : String × α) = (k, v)
        from if_pos hk, mapLookup_cons, mapLookup_cons, if_neg (Ne.symm h),
        if_neg (by rw [hk]; exact Ne.symm h)]
      exact ih
    · rw [List.map_cons, show ((if kv.1 = k then (k, v) else kv) : String × α) = kv
        from if_neg hk, mapLookup_cons, mapLookup_cons]
      by_cases hk' : kv.1 = k'
      · rw [if_pos hk', if_pos hk']
      · rw [if_neg hk', if_neg hk']
        exact ih

theorem mapLookup_set_ne {α : Type} (m : List (String × α)) (k k' : String) (v : α)
    (h : k' ≠ k) : mapLookup (mapSet m k v) k' = mapLookup m k' := by
  unfold mapSet
  split_ifs with hs
  · exact mapLookup_mapset_ne m k k' v h
  · unfold mapLookup
    rw [List.find?_append]
    have h2 : ([(k, v)].find? (fun kv => kv.1 = k')) = none := by
      simp [List.find?, Ne.symm h]
    rw [h2]
    simp

theorem mapLookup_eq_none_of_not_mem {α : Type} (m : List (String × α)) (k : String)
    (h : k ∉ m.map Prod.fst) : mapLookup m k = none := by
  induction m with
  | nil => rfl
  | cons kv rest ih =>
    simp only [List.map_cons, List.mem_cons, not_or] at h
    rw [mapLookup_cons, if_neg (fun he => h.1 he.symm)]
    exact ih h.2

theorem mapLookup_filter {α : Type} (m : List (String × α)) (q : String × α → Bool)
    (k : String) (hnd : (m.map Prod.fst).Nodup) (e' : α)
    (h : mapLookup (m.filter q) k = some e') : mapLookup m k = some e' := by
  induction m with
  | nil => simp [mapLookup] at h
  | cons kv rest ih =>
    simp only [List.map_cons, List.nodup_cons] at hnd
    by_cases hk : kv.1 = k
    · have hrest : mapLookup (rest.filter q) k = none := by
        apply mapLookup_eq_none_of_not_mem
        intro hin
        apply hnd.1
        rw [hk]
        rcases List.mem_map.mp hin with ⟨x, hx, hxk⟩
        exact List.mem_map.mpr ⟨x, (List.mem_filter.mp hx).1, hxk⟩
      rcases hq : q kv with _ | _
      · rw [List.filter_cons_of_neg (by simp [hq]), hrest] at h
        cases h
      · rw [List.filter_cons_of_pos (by simp [hq]), mapLookup_cons, if_pos hk] at h
        rw [mapLookup_cons, if_pos hk]
        exact h
    · rw [mapLookup_cons, if_neg hk]
      rcases hq : q kv with _ | _
      · rw [List.filter_cons_of_neg (by simp [hq])] at h
        exact ih hnd.2 h
      · rw [List.filter_cons_of_pos (by simp [hq]), mapLookup_cons, if_neg hk] at h
        exact ih hnd.2 h

/-- The transitions the spec admits (reflexive steps included). -/
def AllowedStep (s s' : EscrowStatus) : Prop :=
  s = s' ∨ (s = .pending ∧ s' = .active) ∨ (s = .pending ∧ s' = .refunded) ∨
    (s = .active ∧ s' = .completed) ∨ (s = .active ∧ s' = .refunded)

/-- Every map a `recordPayment` call can produce: unchanged, or the same
pending record updated to a pending/active state. -/
theorem recordPayment_shape (m : EscrowMap) (rid pid sig : String) :
    (recordPayment m rid pid sig).1 = m ∨
    ∃ es e2, mapLookup m rid = some es ∧ es.status = .pending ∧
      (e2.status = .pending ∨ e2.status = .active) ∧
      (recordPayment m rid pid sig).1 = mapSet m rid e2 := by
  unfold recordPayment
  rcases hl : mapLookup m rid with _ | es
  · exact Or.inl rfl
  · simp only []
    by_cases h1 : es.status ≠ .pending
    · rw [if_pos h1]; exact Or.inl rfl
    rw [if_neg h1]
    push_neg at h1
    by_cases h2 : pid = es.playerX
    · rw [if_pos h2]
      by_cases h3 : es.playerXPaid
      · simp only [h3, if_true]
        first
        | exact Or.inl rfl
        | exact Or.inl trivial
      · simp only [h3, Bool.false_eq_true, if_false]
        refine Or.inr ⟨es, _, rfl, h1, ?_, rfl⟩
        rcases hop : es.playerOPaid with _ | _ <;> simp [hop, h1]
    rw [if_neg h2]
    by_cases h4 : pid = es.playerO
    · rw [if_pos h4]
      by_cases h5 : es.playerOPaid
      · simp only [h5, if_true]
        first
        | exact Or.inl rfl
        | exact Or.inl trivial
      · simp only [h5, Bool.false_eq_true, if_false]
        refine Or.inr ⟨es, _, rfl, h1, ?_, rfl⟩
        rcases hxp : es.playerXPaid with _ | _ <;> simp [hxp, h1]
    rw [if_neg h4]
    exact Or.inl rfl

/-- Every map a `refundOnDisconnect` call can produce: unchanged, or the
same pending/active record moved to `refunded`. -/
theorem refund_shape (env : ChainEnv) (m : EscrowMap) (rid pid : String) :
    (refundOnDisconnect env m rid pid).1 = m ∨
    ∃ es, mapLookup m rid = some es ∧ (es.status = .pending ∨ es.status = .active) ∧
      (refundOnDisconnect env m rid pid).1 =
        mapSet m rid { es with status := .refunded } := by
  unfold refundOnDisconnect
  rcases hl : mapLookup m rid with _ | es
  · exact Or.inl rfl
  · simp only []
    by_cases h1 : es.status ≠ .pending ∧ es.status ≠ .active
    · rw [if_pos h1]; exact Or.inl rfl
    rw [if_neg h1]
    push_neg at h1
    have hpa : es.status = .pending ∨ es.status = .active := by
      by_cases hp : es.status = .pending
      · exact Or.inl hp
      · exact Or.inr (h1 hp)
    by_cases h2 : env.treasuryLoaded = false
    · rw [if_pos h2]; exact Or.inl rfl
    rw [if_neg h2]
    split_ifs <;>
      first
      | exact Or.inl rfl
      | exact Or.inr ⟨es, rfl, hpa, rfl⟩

/-- Every map a `payoutWinner` call can produce: unchanged, or the same
active record moved to `completed`. -/
theorem payout_shape (env : ChainEnv) (m : EscrowMap) (rid : String)
    (w : Option Player) :
    (payoutWinner env m rid w).1 = m ∨
    ∃ es, mapLookup m rid = some es ∧ es.status = .active ∧
      (payoutWinner env m rid w).1 =
        mapSet m rid { es with status := .completed } := by
  unfold payoutWinner
  rcases hl : mapLookup m rid with _ | es
  · exact Or.inl rfl
  · simp only []
    by_cases h1 : es.status ≠ .active
    · rw [if_pos h1]; exact Or.inl rfl
    rw [if_neg h1]
    push_neg at h1
    by_cases h2 : env.treasuryLoaded = false
    · rw [if_pos h2]; exact Or.inl rfl
    rw [if_neg h2]
    rcases w with _ | wp
    · exact Or.inr ⟨es, rfl, h1, rfl⟩
    · simp only []
      split_ifs <;>
        first
        | exact Or.inl rfl
        | exact Or.inr ⟨es, rfl, h1, rfl⟩

def c3Env : ChainEnv := ⟨true, 10000000, true⟩

/-- The escrow map after create → both payments → payout for room "r". -/
def c3Completed : EscrowMap :=
  escrowStep
    (escrowStep
      (escrowStep
        (escrowStep ([] : EscrowMap) (.create "r" "A" "B" "RANKED_IRON" 0))
        (.record "r" "A" "s1"))
      (.record "r" "B" "s2"))
    (.payout c3Env "r" (some .X))

/-- A refunded record, for observing `payoutWinner`'s failure mode. -/
def c3Refunded : EscrowEntry :=
  { roomId := "q"
    playerX := "A"
    playerO := "B"
    amountLamports := 990000
    playerXPaid := true
    playerOPaid := false
    playerXSignature := some "s1"
    playerOSignature := none
    status := .refunded
    createdAt := 0 }

/-- C3 counterexample: (1) `createEscrow` overwrites unconditionally, so a
`create` on a room whose record is `completed` is observed as
completed → pending, a regression; (2) a `payoutWinner` call on a
`refunded` record fails with the not-active result, not an
already-processed error. -/
theorem escrow_status_regression :
    (mapLookup c3Completed "r").map (fun es => es.status) = some .completed ∧
    (mapLookup (escrowStep c3Completed (.create "r" "A" "B" "RANKED_IRON" 1)) "r").map
      (fun es => es.status) = some .pending ∧
    payoutWinner c3Env [("q", c3Refunded)] "q" (some .X) =
      ([("q", c3Refunded)], .notActive) := by
  refine ⟨rfl, rfl, rfl⟩

/-- C3 amended: over maps with distinct room keys, every
`recordPayment` / `refundOnDisconnect` / `payoutWinner` / `cleanup` step
moves any room's status only along pending→active, pending→refunded,
active→completed, active→refunded (or leaves it be) — `createEscrow` is
excluded, since it resets any existing record to a fresh `pending` —
and from `completed` or `refunded` those three calls fail (recordPayment
with the "Escrow already processed" error, refundOnDisconnect with the
already-processed result, payoutWinner with the not-active result)
leaving the map unchanged. -/
theorem escrow_status_monotonic (m : EscrowMap) (roomId : String) (e : EscrowEntry)
    (hnd : (m.map Prod.fst).Nodup)
    (hm : mapLookup m roomId = some e) :
    (∀ op : EscrowOp, (∀ rid pX pO md now, op ≠ .create rid pX pO md now) →
      ∀ e', mapLookup (escrowStep m op) roomId = some e' →
        AllowedStep e.status e'.status) ∧
    (e.status = .completed ∨ e.status = .refunded →
      (∀ pid sig, recordPayment m roomId pid sig =
        (m, ⟨false, some "Escrow already processed", none⟩)) ∧
      (∀ env pid, refundOnDisconnect env m roomId pid = (m, .alreadyProcessed)) ∧
      (∀ env w, payoutWinner env m roomId w = (m, .notActive))) := by
  have setStep : ∀ (rid : String) (es e2 : EscrowEntry),
      mapLookup m rid = some es → AllowedStep es.status e2.status →
      ∀ e', mapLookup (mapSet m rid e2) roomId = some e' →
        AllowedStep e.status e'.status := by
    intro rid es e2 hes hstep e' he'
    by_cases hr : roomId = rid
    · subst hr
      rw [hm] at hes
      cases hes
      rw [mapLookup_set_self] at he'
      cases he'
      exact hstep
    · rw [mapLookup_set_ne _ _ _ _ hr] at he'
      rw [hm] at he'
      cases he'
      exact Or.inl rfl
  constructor
  · intro op hnc e' he'
    cases op with
    | create rid pX pO md now => exact absurd rfl (hnc rid pX pO md now)
    | record rid pid sig =>
      rcases recordPayment_shape m rid pid sig with hsh | ⟨es, e2, hes, hst, hst2, hsh⟩
      · rw [show escrowStep m (.record rid pid sig) = (recordPayment m rid pid sig).1
          from rfl, hsh, hm] at he'
        cases he'
        exact Or.inl rfl
      · rw [show escrowStep m (.record rid pid sig) = (recordPayment m rid pid sig).1
          from rfl, hsh] at he'
        refine setStep rid es e2 hes ?_ e' he'
        rcases hst2 with h2 | h2
        · exact Or.inl (by rw [hst, h2])
        · exact Or.inr (Or.inl ⟨hst, h2⟩)
    | refund env rid pid =>
      rcases refund_shape env m rid pid with hsh | ⟨es, hes, hst, hsh⟩
      · rw [show escrowStep m (.refund env rid pid) = (refundOnDisconnect env m rid pid).1
          from rfl, hsh, hm] at he'
        cases he'
        exact Or.inl rfl
      · rw [show escrowStep m (.refund env rid pid) = (refundOnDisconnect env m rid pid).1
          from rfl, hsh] at he'
        refine setStep rid es _ hes ?_ e' he'
        rcases hst with h2 | h2
        · exact Or.inr (Or.inr (Or.inl ⟨h2, rfl⟩))
        · exact Or.inr (Or.inr (Or.inr (Or.inr ⟨h2, rfl⟩)))
    | payout env rid w =>
      rcases payout_shape env m rid w with hsh | ⟨es, hes, hst, hsh⟩
      · rw [show escrowStep m (.payout env rid w) = (payoutWinner env m rid w).1
          from rfl, hsh, hm] at he'
        cases he'
        exact Or.inl rfl
      · rw [show escrowStep m (.payout env rid w) = (payoutWinner env m rid w).1
          from rfl, hsh] at he'
        refine setStep rid es _ hes ?_ e' he'
        exact Or.inr (Or.inr (Or.inr (Or.inl ⟨hst, rfl⟩)))
    | cleanup now =>
      have := mapLookup_filter m _ roomId hnd e' he'
      rw [hm] at this
      cases this
      exact Or.inl rfl
  · intro hterm
    have hne : e.status ≠ .pending ∧ e.status ≠ .active := by
      rcases hterm with h | h <;> rw [h] <;> exact ⟨by simp, by simp⟩
    refine ⟨fun pid sig => ?_, fun env pid => ?_, fun env w => ?_⟩
    · unfold recordPayment
      rw [hm]
      simp only [if_pos hne.1]
    · unfold refundOnDisconnect
      rw [hm]
      simp only [if_pos hne]
    · unfold payoutWinner
      rw [hm]
      simp only [if_pos (by rcases hterm with h | h <;> simp [h] :
        e.status ≠ EscrowStatus.active)]

/-- Witness for C3's amended theorem on a concrete map: a cleanup step on
a completed record keeps it completed, and the three mutators all fail on
it unchanged. -/
theorem escrow_status_monotonic_spot :
    AllowedStep EscrowStatus.completed EscrowStatus.completed ∧
    refundOnDisconnect c3Env [("q", { c3Refunded with status := .completed })] "q" "A" =
      ([("q", { c3Refunded with status := .completed })], .alreadyProcessed) := by
  have h := escrow_status_monotonic [("q", { c3Refunded with status := .completed })]
    "q" { c3Refunded with status := .completed } (by simp) rfl
  refine ⟨?_, (h.2 (Or.inl rfl)).2.1 c3Env "A"⟩
  have h2 := h.1 (.cleanup 0) (fun _ _ _ _ _ => by simp) { c3Refunded with status := .completed } rfl
  simpa using h2

/-! ## C6: win detection -/

theorem takeWhile_length_eq_iff {α : Type} (f : α → Bool) (l : List α) :
    (l.takeWhile f).length = l.length ↔ ∀ a ∈ l, f a = true := by
  induction l with
  | nil => simp
  | cons a t ih =>
    rcases hf : f a with _ | _
    · rw [List.takeWhile_cons, hf]
      simp only [Bool.false_eq_true, if_false, List.length_nil, List.length_cons]
      constructor
      · intro h
        exact absurd h (by omega)
      · intro h
        exact absurd (h a (List.mem_cons_self a t)) (by simp [hf])
    · rw [List.takeWhile_cons, hf]
      simp only [if_true, List.length_cons, Nat.add_right_cancel_iff]
      rw [ih]
      constructor
      · intro h x hx
        rcases List.mem_cons.mp hx with rfl | hx2
        · exact hf
        · exact h x hx2
      · intro h x hx
        exact h x (List.mem_cons_of_mem a hx)

theorem checkDirection_eq_true_iff (n w : Nat) (b : Board) (sr sc dr dc : Int)
    (p : Player) :
    checkDirection n w b sr sc dr dc p = true ↔
      ∀ i < w, dirHit n b p sr sc dr dc i = true := by
  unfold checkDirection
  rw [decide_eq_true_eq]
  constructor
  · intro h i hi
    exact (takeWhile_length_eq_iff _ (List.range w)).1
      (by rw [h, List.length_range]) i (List.mem_range.mpr hi)
  · intro h
    have h2 := (takeWhile_length_eq_iff
      (fun i => dirHit n b p sr sc dr dc i) (List.range w)).2
      (fun i hi => h i (List.mem_range.mp hi))
    rw [h2, List.length_range]

theorem dirHit_eq_true_iff (n : Nat) (b : Board) (p : Player) (sr sc dr dc : Int)
    (i : Nat) :
    dirHit n b p sr sc dr dc i = true ↔
      (0 ≤ sr + dr * i ∧ sr + dr * i < (n : Int) ∧
       0 ≤ sc + dc * i ∧ sc + dc * i < (n : Int) ∧
       cellAt b (sr + dr * i) (sc + dc * i) = some p) := by
  simp [dirHit, Bool.and_eq_true, decide_eq_true_eq, and_assoc]

theorem mem_positions (n : Nat) (rc : Nat × Nat) :
    rc ∈ positions n ↔ rc.1 < n ∧ rc.2 < n := by
  cases rc with
  | mk a bb =>
    simp only [positions, List.mem_flatMap, List.mem_map, List.mem_range]
    constructor
    · rintro ⟨r, hr, c, hc, heq⟩
      cases heq
      exact ⟨hr, hc⟩
    · rintro ⟨ha, hb⟩
      exact ⟨a, ha, bb, hb, rfl⟩

/-- The eight unit directions of "a horizontal, vertical, or diagonal
line". -/
def dirs8 : List (Int × Int) :=
  [(0, 1), (1, 0), (1, 1), (1, -1), (0, -1), (-1, 0), (-1, -1), (-1, 1)]

/-- Modelled from the claim's words: there exist `w` consecutive cells
occupied by `p` along a horizontal, vertical, or diagonal line (the line's
first cell, being occupied, lies on the board, so starts range over the
grid). -/
def specLine (n w : Nat) (b : Board) (p : Player) : Bool :=
  (List.range n).any fun rn =>
    (List.range n).any fun cn =>
      dirs8.any fun d =>
        (List.range w).all fun i => dirHit n b p rn cn d.1 d.2 i

theorem specLine_iff (n w : Nat) (b : Board) (p : Player) :
    specLine n w b p = true ↔
      ∃ rn cn : Nat, rn < n ∧ cn < n ∧ ∃ d ∈ dirs8,
        ∀ i < w, dirHit n b p rn cn d.1 d.2 i = true := by
  simp only [specLine, List.any_eq_true, List.all_eq_true, List.mem_range]
  constructor
  · rintro ⟨rn, hrn, cn, hcn, d, hd, hall⟩
    exact ⟨rn, cn, hrn, hcn, d, hd, fun i hi => hall i hi⟩
  · rintro ⟨rn, cn, hrn, hcn, d, hd, hall⟩
    exact ⟨rn, hrn, cn, hcn, d, hd, fun i hi => hall i hi⟩

/-- If `getWinner` reports `p`, some grid cell holds `p` and starts a full
run in one of the four scanned directions. -/
theorem getWinner_some_elim {n w : Nat} {b : Board} {p : Player}
    (h : getWinner n w b = some p) :
    ∃ rc : Nat × Nat, rc.1 < n ∧ rc.2 < n ∧ cellNat b rc.1 rc.2 = some p ∧
      ∃ d ∈ dirs4, checkDirection n w b rc.1 rc.2 d.1 d.2 p = true := by
  obtain ⟨rc, hrc, hf⟩ := List.exists_of_findSome?_eq_some h
  rw [mem_positions] at hrc
  refine ⟨rc, hrc.1, hrc.2, ?_⟩
  rcases hcell : cellNat b rc.1 rc.2 with _ | q
  · rw [hcell] at hf
    cases hf
  · rw [hcell] at hf
    replace hf : (if checkDirection n w b rc.1 rc.2 0 1 q then some q
        else if checkDirection n w b rc.1 rc.2 1 0 q then some q
        else if checkDirection n w b rc.1 rc.2 1 1 q then some q
        else if checkDirection n w b rc.1 rc.2 1 (-1) q then some q
        else none) = some p := hf
    split_ifs at hf with h1 h2 h3 h4
    · cases hf; exact ⟨rfl, (0, 1), by simp [dirs4], h1⟩
    · cases hf; exact ⟨rfl, (1, 0), by simp [dirs4], h2⟩
    · cases hf; exact ⟨rfl, (1, 1), by simp [dirs4], h3⟩
    · cases hf; exact ⟨rfl, (1, -1), by simp [dirs4], h4⟩

/-- Conversely a grid cell holding `p` with a full run in a scanned
direction forces `getWinner` to report somebody. -/
theorem getWinner_ne_none {n w : Nat} {b : Board} {p : Player}
    (h : ∃ rc : Nat × Nat, rc.1 < n ∧ rc.2 < n ∧ cellNat b rc.1 rc.2 = some p ∧
      ∃ d ∈ dirs4, checkDirection n w b rc.1 rc.2 d.1 d.2 p = true) :
    getWinner n w b ≠ none := by
  obtain ⟨rc, hr, hc, hcell, d, hd, hchk⟩ := h
  intro hnone
  unfold getWinner at hnone
  rw [List.findSome?_eq_none_iff] at hnone
  have hbody := hnone rc ((mem_positions n rc).mpr ⟨hr, hc⟩)
  rw [hcell] at hbody
  replace hbody : (if checkDirection n w b rc.1 rc.2 0 1 p then some p
      else if checkDirection n w b rc.1 rc.2 1 0 p then some p
      else if checkDirection n w b rc.1 rc.2 1 1 p then some p
      else if checkDirection n w b rc.1 rc.2 1 (-1) p then some p
      else none) = none := hbody
  fin_cases hd <;> simp only at hchk <;> split_ifs at hbody

/-- Reversing a full run: the run read from its far end in the opposite
direction is also a full run, starting on the grid. -/
theorem line_reverse {n w : Nat} {b : Board} {p : Player} {rn cn : Nat}
    {dr dc : Int} (hw : 1 ≤ w)
    (hall : ∀ i < w, dirHit n b p rn cn dr dc i = true) :
    ∃ rn' cn' : Nat, rn' < n ∧ cn' < n ∧
      ∀ i < w, dirHit n b p rn' cn' (-dr) (-dc) i = true := by
  have hend := (dirHit_eq_true_iff n b p rn cn dr dc (w - 1)).1
    (hall (w - 1) (by omega))
  have hcast : ((w - 1 : Nat) : Int) = (w : Int) - 1 := by
    have : (1 : Nat) ≤ w := hw
    push_cast [Nat.cast_sub this]
    ring
  obtain ⟨her0, hern, hec0, hecn, -⟩ := hend
  refine ⟨(rn + dr * (w - 1 : Nat)).toNat, (cn + dc * (w - 1 : Nat)).toNat, ?_, ?_, ?_⟩
  · omega
  · omega
  · intro i hi
    rw [dirHit_eq_true_iff]
    have hiw : ((w - 1 - i : Nat) : Int) = (w : Int) - 1 - i := by
      have h1 : i ≤ w - 1 := by omega
      push_cast [Nat.cast_sub hw, Nat.cast_sub h1]
      ring
    have hpos := (dirHit_eq_true_iff n b p rn cn dr dc (w - 1 - i)).1
      (hall (w - 1 - i) (by omega))
    have hr' : ((rn + dr * (w - 1 : Nat)).toNat : Int) + -dr * i =
        (rn : Int) + dr * ((w - 1 - i : Nat) : Int) := by
      rw [Int.toNat_of_nonneg her0, hcast, hiw]
      ring
    have hc' : ((cn + dc * (w - 1 : Nat)).toNat : Int) + -dc * i =
        (cn : Int) + dc * ((w - 1 - i : Nat) : Int) := by
      rw [Int.toNat_of_nonneg hec0, hcast, hiw]
      ring
    rw [hr', hc']
    exact hpos

theorem getWinningLineInDirection_length {n w : Nat} {b : Board}
    {sr sc dr dc : Int} {p : Player} {l : List (Int × Int)}
    (h : getWinningLineInDirection n w b sr sc dr dc p = some l) : l.length = w := by
  unfold getWinningLineInDirection at h
  split_ifs at h
  cases h
  rw [List.length_map, List.length_range]

theorem getWinningLine_length {n w : Nat} {b : Board} {l : List (Int × Int)}
    (h : getWinningLine n w b = some l) : l.length = w := by
  unfold getWinningLine at h
  rcases hw : getWinner n w b with _ | winner
  · rw [hw] at h; cases h
  · rw [hw] at h
    obtain ⟨rc, hrc, hbody⟩ := List.exists_of_findSome?_eq_some h
    split_ifs at hbody
    obtain ⟨d, hd, hdir⟩ := List.exists_of_findSome?_eq_some hbody
    exact getWinningLineInDirection_length hdir

theorem getWinningLine_of_winner {n w : Nat} {b : Board} {p : Player}
    (hwin : getWinner n w b = some p) :
    ∃ l, getWinningLine n w b = some l := by
  obtain ⟨rc, hr, hc, hcell, d, hd, hchk⟩ := getWinner_some_elim hwin
  unfold getWinningLine
  rw [hwin]
  rcases hres : (positions n).findSome? (fun rc =>
      if cellNat b rc.1 rc.2 = some p then
        dirs4.findSome? (fun d => getWinningLineInDirection n w b rc.1 rc.2 d.1 d.2 p)
      else none) with _ | l
  · exfalso
    rw [List.findSome?_eq_none_iff] at hres
    have hbody := hres rc ((mem_positions n rc).mpr ⟨hr, hc⟩)
    rw [if_pos hcell, List.findSome?_eq_none_iff] at hbody
    have hdir := hbody d hd
    unfold getWinningLineInDirection at hdir
    rw [if_pos (List.all_eq_true.mpr (fun i hi =>
      (checkDirection_eq_true_iff n w b rc.1 rc.2 d.1 d.2 p).1 hchk i
        (List.mem_range.mp hi)))] at hdir
    cases hdir
  · exact ⟨l, hres⟩

theorem getWinner_some_specLine {n w : Nat} {b : Board} {p : Player}
    (h : getWinner n w b = some p) : specLine n w b p = true := by
  obtain ⟨rc, hr, hc, hcell, d, hd, hchk⟩ := getWinner_some_elim h
  rw [specLine_iff]
  refine ⟨rc.1, rc.2, hr, hc, d, ?_,
    fun i hi => (checkDirection_eq_true_iff n w b rc.1 rc.2 d.1 d.2 p).1 hchk i hi⟩
  fin_cases hd <;> simp [dirs8]

/-- A board (not reachable in play) where both players hold complete
lines: X across row 0 and O across row 1. -/
def c6Board : Board :=
  [[some .X, some .X, some .X], [some .O, some .O, some .O], [none, none, none]]

/-- C6 counterexample: on a board where both players have complete lines
the scan reports only the first (X), so "getWinner reports p iff a line
for p exists" fails at p = O; and with winCondition 0 the line-existence
side is vacuously true on an empty board while getWinner reports nobody. -/
theorem getWinner_misses_second_line :
    getWinner 3 3 c6Board = some .X ∧ specLine 3 3 c6Board .O = true ∧
    ¬getWinner 3 3 c6Board = some .O ∧
    specLine 1 0 [[none]] .X = true ∧ getWinner 1 0 [[none]] = none := by
  refine ⟨by decide, by decide, by decide, by decide, by decide⟩

/-- C6 amended: for winCondition ≥ 1 and boards on which at most one
player has a complete line (true of every board reachable in play, and
the spec itself notes ties are broken by scan order), `getWinner` reports
`p` iff `w` consecutive `p`-cells exist along one of the eight line
directions; and whenever a winner is reported, the reported winning line
has length exactly `w`. -/
theorem getWinner_iff_specLine (n w : Nat) (b : Board) (hw : 1 ≤ w)
    (huniq : ¬(specLine n w b .X = true ∧ specLine n w b .O = true)) :
    (∀ p, getWinner n w b = some p ↔ specLine n w b p = true) ∧
    (∀ q, getWinner n w b = some q →
      ∃ l, getWinningLine n w b = some l ∧ l.length = w) := by
  constructor
  · intro p
    constructor
    · exact getWinner_some_specLine
    · intro hline
      have hlp := hline
      rw [specLine_iff] at hline
      obtain ⟨rn, cn, hrn, hcn, d, hd, hall⟩ := hline
      have h4 : ∃ rn' cn' : Nat, rn' < n ∧ cn' < n ∧ ∃ d' ∈ dirs4,
          ∀ i < w, dirHit n b p rn' cn' d'.1 d'.2 i = true := by
        fin_cases hd
        · exact ⟨rn, cn, hrn, hcn, (0, 1), by simp [dirs4], hall⟩
        · exact ⟨rn, cn, hrn, hcn, (1, 0), by simp [dirs4], hall⟩
        · exact ⟨rn, cn, hrn, hcn, (1, 1), by simp [dirs4], hall⟩
        · exact ⟨rn, cn, hrn, hcn, (1, -1), by simp [dirs4], hall⟩
        · obtain ⟨rn', cn', h1, h2, h3⟩ := line_reverse hw hall
          refine ⟨rn', cn', h1, h2, (0, 1), by simp [dirs4], fun i hi => ?_⟩
          have := h3 i hi
          simpa using this
        · obtain ⟨rn', cn', h1, h2, h3⟩ := line_reverse hw hall
          refine ⟨rn', cn', h1, h2, (1, 0), by simp [dirs4], fun i hi => ?_⟩
          have := h3 i hi
          simpa using this
        · obtain ⟨rn', cn', h1, h2, h3⟩ := line_reverse hw hall
          refine ⟨rn', cn', h1, h2, (1, 1), by simp [dirs4], fun i hi => ?_⟩
          have := h3 i hi
          simpa using this
        · obtain ⟨rn', cn', h1, h2, h3⟩ := line_reverse hw hall
          refine ⟨rn', cn', h1, h2, (1, -1), by simp [dirs4], fun i hi => ?_⟩
          have := h3 i hi
          simpa using this
      obtain ⟨rn', cn', hrn', hcn', d', hd', hall'⟩ := h4
      have hcell0 : cellNat b rn' cn' = some p := by
        have h0 := (dirHit_eq_true_iff n b p rn' cn' d'.1 d'.2 0).1 (hall' 0 hw)
        obtain ⟨-, -, -, -, hc0⟩ := h0
        simpa [cellAt] using hc0
      have hne := getWinner_ne_none ⟨(rn', cn'), hrn', hcn', hcell0, d', hd',
        (checkDirection_eq_true_iff n w b rn' cn' d'.1 d'.2 p).2 hall'⟩
      rcases hq : getWinner n w b with _ | q
      · exact absurd hq hne
      · have hlq := getWinner_some_specLine hq
        by_cases hpq : q = p
        · rw [hpq]
        · exfalso
          apply huniq
          cases p <;> cases q
          · exact absurd rfl hpq
          · exact ⟨hlp, hlq⟩
          · exact ⟨hlq, hlp⟩
          · exact absurd rfl hpq
  · intro q hq
    obtain ⟨l, hl⟩ := getWinningLine_of_winner hq
    exact ⟨l, hl, getWinningLine_length hl⟩

/-- A board where only X has a line. -/
def c6BoardX : Board :=
  [[some .X, some .X, some .X], [some .O, some .O, none], [none, none, none]]

/-- Witness for C6's amended theorem: on a board where only X completed a
row, the iff yields winner X and the reported winning line has length 3. -/
theorem getWinner_iff_specLine_spot :
    getWinner 3 3 c6BoardX = some .X ∧
    (∃ l, getWinningLine 3 3 c6BoardX = some l ∧ l.length = 3) := by
  have h := getWinner_iff_specLine 3 3 c6BoardX (by norm_num) (by decide)
  have hX : specLine 3 3 c6BoardX .X = true := by decide
  exact ⟨(h.1 .X).2 hX, h.2 .X ((h.1 .X).2 hX)⟩

/-! ## C5: rolling-mode piece cap -/

/-- Number of grid cells (inside the n×n board) occupied by `p`. -/
def cellCount (n : Nat) (b : Board) (p : Player) : Nat :=
  ((Finset.range n ×ˢ Finset.range n).filter
    (fun rc => cellNat b rc.1 rc.2 = some p)).card

/-- Number of placement-record entries of player `p`. -/
def entCount (e : Engine) (p : Player) : Nat :=
  e.placedOrder.countP (fun pl => pl.player == p)

/-- The player's placed-count field. -/
def fieldCount (e : Engine) : Player → Int
  | .X => e.playerXPlacedCount
  | .O => e.playerOPlacedCount

/-- `maxPieces` as a natural number. -/
def maxPiecesNat (e : Engine) : Nat :=
  if e.boardSize = 3 then 3 else 4

/-- Every occupied grid cell is backed by a placement-record entry of the
same player at the same coordinates. -/
def Supported (e : Engine) : Prop :=
  ∀ (p : Player) (rn cn : Nat), cellNat e.board rn cn = some p →
    ∃ pl ∈ e.placedOrder, pl.player = p ∧ pl.row.toNat = rn ∧ pl.col.toNat = cn

/-- The inductive invariant: supported cells, entry counts capped, and
entry counts bounded by the placed-count fields. -/
def EngineInv (e : Engine) : Prop :=
  Supported e ∧ ∀ p, entCount e p ≤ maxPiecesNat e ∧
    (entCount e p : Int) ≤ fieldCount e p

/-- Engine states reachable from a fresh engine by accepted moves. -/
inductive Reached (cfg : GameConfig) : Engine → Prop where
  | init : Reached cfg (initEngine cfg)
  | step {e e' : Engine} {row col : Int} {p : Player} {ts : Nat} :
      Reached cfg e → makeMove e row col p ts = (true, e') → Reached cfg e'

theorem listGetD_set {α : Type} (l : List α) (i : Nat) (a : α) (j : Nat) (d : α) :
    (l.set i a).getD j d =
      if i = j ∧ i < l.length then a else l.getD j d := by
  rw [List.getD_eq_getElem?_getD, List.getElem?_set, List.getD_eq_getElem?_getD]
  by_cases hij : i = j
  · subst hij
    by_cases hlen : i < l.length
    · rw [if_pos rfl, if_pos hlen, if_pos ⟨rfl, hlen⟩]
      rfl
    · rw [if_pos rfl, if_neg hlen, if_neg (fun hc => hlen hc.2)]
      rw [List.getElem?_eq_none (by omega)]
  · rw [if_neg hij, if_neg (fun hc => hij hc.1)]

theorem cellNat_createEmptyBoard (n : Nat) (rn cn : Nat) :
    cellNat (createEmptyBoard n) rn cn = none := by
  unfold cellNat createEmptyBoard
  have hrow : (List.replicate n (List.replicate n (none : Cell))).getD rn [] =
      (if rn < n then List.replicate n (none : Cell) else []) := by
    rw [List.getD_eq_getElem?_getD, List.getElem?_replicate]
    by_cases h : rn < n
    · rw [if_pos h, if_pos h]
      rfl
    · rw [if_neg h, if_neg h]
      rfl
  rw [hrow]
  by_cases h : rn < n
  · rw [if_pos h, List.getD_eq_getElem?_getD, List.getElem?_replicate]
    by_cases h2 : cn < n
    · rw [if_pos h2]
      rfl
    · rw [if_neg h2]
      rfl
  · rw [if_neg h]
    rfl

theorem cellNat_setCell_ne (b : Board) (r c : Int) (v : Cell) (rn cn : Nat)
    (h : ¬(rn = r.toNat ∧ cn = c.toNat)) :
    cellNat (setCell b r c v) rn cn = cellNat b rn cn := by
  unfold cellNat setCell
  rw [listGetD_set]
  by_cases hr : r.toNat = rn ∧ r.toNat < b.length
  · rw [if_pos hr, listGetD_set,
      if_neg (fun hc => h ⟨hr.1.symm, by rw [hc.1]⟩)]
    rw [hr.1]
  · rw [if_neg hr]

theorem cellNat_setCell_self (b : Board) (r c : Int) (v : Cell) :
    cellNat (setCell b r c v) r.toNat c.toNat = v ∨
    (cellNat (setCell b r c v) r.toNat c.toNat = cellNat b r.toNat c.toNat ∧
      cellNat b r.toNat c.toNat = none) := by
  unfold cellNat setCell
  rw [listGetD_set]
  by_cases hr : r.toNat < b.length
  · rw [if_pos ⟨rfl, hr⟩, listGetD_set]
    by_cases hc : c.toNat < (b.getD r.toNat []).length
    · left
      rw [if_pos ⟨rfl, hc⟩]
    · right
      rw [if_neg (fun h2 => hc h2.2)]
      refine ⟨rfl, ?_⟩
      rw [List.getD_eq_getElem?_getD, List.getElem?_eq_none (by omega)]
      rfl
  · right
    rw [if_neg (fun h2 => hr h2.2)]
    refine ⟨rfl, ?_⟩
    have hrow : b.getD r.toNat [] = [] := by
      rw [List.getD_eq_getElem?_getD, List.getElem?_eq_none (by omega)]
      rfl
    rw [hrow]
    rfl

theorem countP_filter_drop {α : Type} (l : List α) (f g : α → Bool) (x : α)
    (hx : x ∈ l) (hgx : g x = false) (hfx : f x = true) :
    (l.filter g).countP f + 1 ≤ l.countP f := by
  induction l with
  | nil => cases hx
  | cons a t ih =>
    rcases List.mem_cons.mp hx with rfl | hxt
    · rw [List.filter_cons_of_neg (by simp [hgx]), List.countP_cons_of_pos _ _ hfx]
      have : (t.filter g).countP f ≤ t.countP f :=
        (List.filter_sublist t).countP_le f
      omega
    · have hle := ih hxt
      rcases hga : g a with _ | _
      · rw [List.filter_cons_of_neg (by simp [hga])]
        rcases hfa : f a with _ | _
        · rw [List.countP_cons_of_neg _ _ (by simp [hfa])]
          omega
        · rw [List.countP_cons_of_pos _ _ hfa]
          omega
      · rw [List.filter_cons_of_pos (by simp [hga])]
        rcases hfa : f a with _ | _
        · rw [List.countP_cons_of_neg _ _ (by simp [hfa]),
            List.countP_cons_of_neg _ _ (by simp [hfa])]
          omega
        · rw [List.countP_cons_of_pos _ _ hfa, List.countP_cons_of_pos _ _ hfa]
          omega

theorem countP_filter_keep {α : Type} (l : List α) (f g : α → Bool)
    (h : ∀ x ∈ l, f x = true → g x = true) :
    (l.filter g).countP f = l.countP f := by
  induction l with
  | nil => rfl
  | cons a t ih =>
    have ht := ih (fun x hx => h x (List.mem_cons_of_mem a hx))
    rcases hga : g a with _ | _
    · have hfa : f a = false := by
        rcases hf : f a with _ | _
        · rfl
        · exact absurd (h a (List.mem_cons_self a t) hf) (by simp [hga])
      rw [List.filter_cons_of_neg (by simp [hga]),
        List.countP_cons_of_neg _ _ (by simp [hfa]), ht]
    · rcases hfa : f a with _ | _
      · rw [List.filter_cons_of_pos (by simp [hga]),
          List.countP_cons_of_neg _ _ (by simp [hfa]),
          List.countP_cons_of_neg _ _ (by simp [hfa]), ht]
      · rw [List.filter_cons_of_pos (by simp [hga]),
          List.countP_cons_of_pos _ _ hfa, List.countP_cons_of_pos _ _ hfa, ht]

theorem removeOldest_none (e : Engine) (p : Player)
    (h : e.placedOrder.find? (fun pl => pl.player = p) = none) :
    removeOldestPiece e p = e := by
  unfold removeOldestPiece
  rw [h]

theorem removeOldest_found (e : Engine) (p : Player) (pl : Placed)
    (h : e.placedOrder.find? (fun pl => pl.player = p) = some pl) :
    removeOldestPiece e p =
      { e with
        board := setCell e.board pl.row pl.col none
        placedOrder := e.placedOrder.filter
          (fun q => ¬(q.row = pl.row ∧ q.col = pl.col ∧ q.player = p))
        playerXPlacedCount :=
          if p = .X then e.playerXPlacedCount - 1 else e.playerXPlacedCount
        playerOPlacedCount :=
          if p = .O then e.playerOPlacedCount - 1 else e.playerOPlacedCount } := by
  unfold removeOldestPiece
  rw [h]

/-- The count of `p`-entries seen through the entry-count function, after
the successful-move record update. -/
theorem entCount_append (po : List Placed) (x : Placed) (p : Player) :
    (po ++ [x]).countP (fun pl => pl.player == p) =
      po.countP (fun pl => pl.player == p) + (if x.player = p then 1 else 0) := by
  rw [List.countP_append]
  rcases hx : x.player == p with _ | _
  · rw [if_neg (by simpa using hx)]
    simp [List.countP, List.countP.go, hx]
  · rw [if_pos (by simpa using hx)]
    simp [List.countP, List.countP.go, hx]

/-- Supported cells give at most as many occupied grid cells as `p`
entries in the placement record. -/
theorem cellCount_le_entCount (e : Engine) (p : Player) (hs : Supported e) :
    cellCount e.boardSize e.board p ≤ entCount e p := by
  classical
  have hsub : (Finset.range e.boardSize ×ˢ Finset.range e.boardSize).filter
      (fun rc => cellNat e.board rc.1 rc.2 = some p) ⊆
      ((e.placedOrder.filter (fun pl => pl.player == p)).map
        (fun pl => (pl.row.toNat, pl.col.toNat))).toFinset := by
    intro rc hrc
    have hcell := (Finset.mem_filter.mp hrc).2
    obtain ⟨pl, hpl, hp, hr, hc⟩ := hs p rc.1 rc.2 hcell
    rw [List.mem_toFinset]
    refine List.mem_map.mpr ⟨pl, List.mem_filter.mpr ⟨hpl, by simp [hp]⟩, ?_⟩
    rw [hr, hc]
  calc cellCount e.boardSize e.board p
      ≤ ((e.placedOrder.filter (fun pl => pl.player == p)).map
          (fun pl => (pl.row.toNat, pl.col.toNat))).toFinset.card :=
        Finset.card_le_card hsub
    _ ≤ ((e.placedOrder.filter (fun pl => pl.player == p)).map
          (fun pl => (pl.row.toNat, pl.col.toNat))).length :=
        List.toFinset_card_le _
    _ = (e.placedOrder.filter (fun pl => pl.player == p)).length :=
        List.length_map _ _
    _ = entCount e p :=
        (List.countP_eq_length_filter (fun pl => pl.player == p) e.placedOrder).symm


theorem initEngine_inv (cfg : GameConfig) : EngineInv (initEngine cfg) := by
  refine ⟨?_, ?_⟩
  · intro p rn cn hcell
    rw [show (initEngine cfg).board = createEmptyBoard cfg.boardSize from rfl,
      cellNat_createEmptyBoard] at hcell
    cases hcell
  · intro p
    constructor
    · show ([] : List Placed).countP _ ≤ _
      unfold maxPiecesNat
      split_ifs <;> simp [List.countP, List.countP.go]
    · show ((([] : List Placed).countP _ : Int)) ≤ _
      cases p <;> simp [entCount, fieldCount, initEngine]

theorem maxPieces_cast (e : Engine) : maxPieces e = (maxPiecesNat e : Int) := by
  unfold maxPieces maxPiecesNat
  split_ifs <;> rfl

theorem one_le_maxPiecesNat (e : Engine) : 1 ≤ maxPiecesNat e := by
  unfold maxPiecesNat
  split_ifs <;> omega

/-- Placing a piece and recording it preserves the invariant, given the
mover's entry count is strictly below the cap. -/
theorem place_inv (e1 : Engine) (row col : Int) (p : Player) (ts : Nat)
    (hs : Supported e1)
    (hcap1 : entCount e1 p + 1 ≤ maxPiecesNat e1)
    (hcap2 : ∀ q, q ≠ p → entCount e1 q ≤ maxPiecesNat e1)
    (hfield : ∀ q, (entCount e1 q : Int) ≤ fieldCount e1 q) :
    EngineInv { e1 with
      board := setCell e1.board row col (some p)
      playerXPlacedCount :=
        if p = .X then e1.playerXPlacedCount + 1 else e1.playerXPlacedCount
      playerOPlacedCount :=
        if p = .O then e1.playerOPlacedCount + 1 else e1.playerOPlacedCount
      placedOrder := e1.placedOrder ++ [⟨p, row, col⟩]
      moveHistory := e1.moveHistory ++ [⟨row, col, p, ts⟩] } := by
  constructor
  · intro q rn cn hcell
    by_cases ht : rn = row.toNat ∧ cn = col.toNat
    · rcases cellNat_setCell_self e1.board row col (some p) with hset | ⟨hset, horig⟩
      · rw [ht.1, ht.2, hset] at hcell
        injection hcell with hqp
        exact ⟨⟨p, row, col⟩, List.mem_append_right _ (List.mem_singleton.mpr rfl),
          hqp, by rw [ht.1], by rw [ht.2]⟩
      · rw [ht.1, ht.2, hset, horig] at hcell
        cases hcell
    · rw [show ({ e1 with
          board := setCell e1.board row col (some p),
          playerXPlacedCount :=
            if p = .X then e1.playerXPlacedCount + 1 else e1.playerXPlacedCount,
          playerOPlacedCount :=
            if p = .O then e1.playerOPlacedCount + 1 else e1.playerOPlacedCount,
          placedOrder := e1.placedOrder ++ [⟨p, row, col⟩],
          moveHistory := e1.moveHistory ++ [⟨row, col, p, ts⟩] } : Engine).board =
          setCell e1.board row col (some p) from rfl,
        cellNat_setCell_ne _ _ _ _ _ _ ht] at hcell
      obtain ⟨pl', hpl', hq, hr, hc⟩ := hs q rn cn hcell
      exact ⟨pl', List.mem_append_left _ hpl', hq, hr, hc⟩
  · intro q
    have hent : entCount { e1 with
        board := setCell e1.board row col (some p),
        playerXPlacedCount :=
          if p = .X then e1.playerXPlacedCount + 1 else e1.playerXPlacedCount,
        playerOPlacedCount :=
          if p = .O then e1.playerOPlacedCount + 1 else e1.playerOPlacedCount,
        placedOrder := e1.placedOrder ++ [⟨p, row, col⟩],
        moveHistory := e1.moveHistory ++ [⟨row, col, p, ts⟩] } q =
        entCount e1 q + (if p = q then 1 else 0) := by
      unfold entCount
      exact entCount_append e1.placedOrder ⟨p, row, col⟩ q
    constructor
    · rw [hent]
      by_cases hq : p = q
      · subst hq
        rw [if_pos rfl]
        exact hcap1
      · rw [if_neg hq]
        exact hcap2 q (fun h2 => hq h2.symm)
    · rw [hent]
      have hf := hfield q
      rcases p <;> rcases q <;>
        simp only [fieldCount] at hf ⊢ <;> push_cast <;> omega

theorem removeOldest_fields (e : Engine) (p : Player) :
    (removeOldestPiece e p).boardSize = e.boardSize ∧
      (removeOldestPiece e p).infiniteMode = e.infiniteMode := by
  cases hf : e.placedOrder.find? (fun pl => pl.player = p) with
  | none => rw [removeOldest_none e p hf]; exact ⟨rfl, rfl⟩
  | some pl => rw [removeOldest_found e p pl hf]; exact ⟨rfl, rfl⟩

/-- A successful move preserves board size and mode. -/
theorem makeMove_fields {e e' : Engine} {row col : Int} {p : Player} {ts : Nat}
    (h : makeMove e row col p ts = (true, e')) :
    e'.boardSize = e.boardSize ∧ e'.infiniteMode = e.infiniteMode := by
  unfold makeMove at h
  rcases hval : isValidMove e row col p with _ | _
  · rw [hval, if_pos rfl] at h
    injection h with h1 _
    exact absurd h1 (by decide)
  · rw [hval, if_neg (by decide)] at h
    injection h with _ h2
    rw [← h2]
    by_cases hm : e.infiniteMode = true
    · rw [if_pos hm]
      by_cases hcap : maxPieces e ≤
          (if p = .X then e.playerXPlacedCount else e.playerOPlacedCount)
      · rw [if_pos hcap]
        exact removeOldest_fields e p
      · rw [if_neg hcap]
        exact ⟨rfl, rfl⟩
    · rw [if_neg hm]
      exact ⟨rfl, rfl⟩

/-- One accepted move in infinite mode preserves the invariant. -/
theorem makeMove_inv {e e' : Engine} {row col : Int} {p : Player} {ts : Nat}
    (hmode : e.infiniteMode = true) (hinv : EngineInv e)
    (h : makeMove e row col p ts = (true, e')) : EngineInv e' := by
  have hval : isValidMove e row col p = true := by
    by_contra hvf
    rw [Bool.not_eq_true] at hvf
    unfold makeMove at h
    rw [hvf, if_pos rfl] at h
    injection h with h1 _
    exact absurd h1 (by decide)
  unfold makeMove at h
  rw [hval, if_neg (by decide)] at h
  injection h with _ h2
  rw [← h2, if_pos hmode]
  by_cases hcap : maxPieces e ≤ (if p = .X then e.playerXPlacedCount else e.playerOPlacedCount)
  · rw [if_pos hcap]
    rcases hfind : e.placedOrder.find? (fun pl => pl.player = p) with _ | pl
    · rw [removeOldest_none e p hfind]
      have hzero : entCount e p = 0 := by
        rw [entCount, List.countP_eq_zero]
        intro pl hpl
        have := List.find?_eq_none.mp hfind pl hpl
        simpa using this
      refine place_inv e row col p ts hinv.1 ?_ (fun q _ => (hinv.2 q).1)
        (fun q => (hinv.2 q).2)
      rw [hzero]
      exact one_le_maxPiecesNat e
    · have hplmem : pl ∈ e.placedOrder := List.mem_of_find?_eq_some hfind
      have hplp : pl.player = p := by
        have := List.find?_some hfind
        simpa using this
      rw [removeOldest_found e p pl hfind]
      set er := { e with
        board := setCell e.board pl.row pl.col none
        placedOrder := e.placedOrder.filter
          (fun q => ¬(q.row = pl.row ∧ q.col = pl.col ∧ q.player = p))
        playerXPlacedCount :=
          if p = Player.X then e.playerXPlacedCount - 1 else e.playerXPlacedCount
        playerOPlacedCount :=
          if p = Player.O then e.playerOPlacedCount - 1 else e.playerOPlacedCount } with her
      have herEnt : ∀ q, entCount er q =
          (e.placedOrder.filter
            (fun q2 => ¬(q2.row = pl.row ∧ q2.col = pl.col ∧ q2.player = p))).countP
            (fun pl2 => pl2.player == q) := fun q => rfl
      have hdropP : entCount er p + 1 ≤ entCount e p := by
        rw [herEnt]
        exact countP_filter_drop e.placedOrder _ _ pl hplmem
          (by simp [hplp]) (by simp [hplp])
      have hkeepQ : ∀ q, q ≠ p → entCount er q = entCount e q := by
        intro q hq
        rw [herEnt]
        exact countP_filter_keep e.placedOrder _ _ (by
          intro x hx hfx
          simp only [beq_iff_eq] at hfx
          simp only [decide_eq_true_eq]
          rintro ⟨-, -, hxp⟩
          exact hq (hfx ▸ hxp ▸ rfl))
      have hsup : Supported er := by
        intro q rn cn hcell
        by_cases ht : rn = pl.row.toNat ∧ cn = pl.col.toNat
        · rcases cellNat_setCell_self e.board pl.row pl.col none with hset | ⟨hset, horig⟩
          · rw [show er.board = setCell e.board pl.row pl.col none from rfl,
              ht.1, ht.2, hset] at hcell
            cases hcell
          · rw [show er.board = setCell e.board pl.row pl.col none from rfl,
              ht.1, ht.2, hset, horig] at hcell
            cases hcell
        · rw [show er.board = setCell e.board pl.row pl.col none from rfl,
            cellNat_setCell_ne _ _ _ _ _ _ ht] at hcell
          obtain ⟨pl', hpl', hq, hr, hc⟩ := hinv.1 q rn cn hcell
          refine ⟨pl', List.mem_filter.mpr ⟨hpl', ?_⟩, hq, hr, hc⟩
          simp only [decide_eq_true_eq]
          rintro ⟨hrr, hcc, -⟩
          exact ht ⟨by rw [← hr, hrr], by rw [← hc, hcc]⟩
      have hfieldP : fieldCount er p = fieldCount e p - 1 := by
        cases p <;> simp [fieldCount, her]
      have hfieldQ : ∀ q, q ≠ p → fieldCount er q = fieldCount e q := by
        intro q hq
        cases p <;> cases q <;> simp_all [fieldCount, her]
      refine place_inv er row col p ts hsup ?_ ?_ ?_
      · have : entCount e p ≤ maxPiecesNat e := (hinv.2 p).1
        have hbs : maxPiecesNat er = maxPiecesNat e := rfl
        omega
      · intro q hq
        rw [hkeepQ q hq]
        exact (hinv.2 q).1
      · intro q
        by_cases hq : q = p
        · subst hq
          rw [hfieldP]
          have h1 := (hinv.2 q).2
          omega
        · rw [hkeepQ q hq, hfieldQ q hq]
          exact (hinv.2 q).2
  · rw [if_neg hcap]
    refine place_inv e row col p ts hinv.1 ?_ (fun q _ => (hinv.2 q).1)
      (fun q => (hinv.2 q).2)
    have hfp : (if p = .X then e.playerXPlacedCount else e.playerOPlacedCount) =
        fieldCount e p := by
      cases p <;> simp [fieldCount]
    rw [hfp] at hcap
    have h1 := (hinv.2 p).2
    have h2 : fieldCount e p < (maxPiecesNat e : Int) := by
      rw [← maxPieces_cast]
      omega
    have h3 : (entCount e p : Int) < (maxPiecesNat e : Int) := lt_of_le_of_lt h1 h2
    exact_mod_cast h3

/-- Reachable rolling-mode states keep mode, board size and the invariant. -/
theorem reached_inv (cfg : GameConfig) (hcfg : cfg.infiniteMode = true)
    (e : Engine) (h : Reached cfg e) :
    e.infiniteMode = true ∧ e.boardSize = cfg.boardSize ∧ EngineInv e := by
  induction h with
  | init => exact ⟨hcfg, rfl, initEngine_inv cfg⟩
  | step hr hm ih =>
    obtain ⟨hbs, hmode⟩ := makeMove_fields hm
    exact ⟨hmode.trans ih.1, hbs.trans ih.2.1, makeMove_inv ih.1 ih.2.2 hm⟩

/-- C5: in rolling (infinite) mode, after any sequence of accepted moves
from a fresh engine, no player ever occupies more grid cells than the
cap — 3 on a 3×3 board, 4 on larger boards. -/
theorem rolling_mode_cap (cfg : GameConfig) (hcfg : cfg.infiniteMode = true)
    (e : Engine) (h : Reached cfg e) (p : Player) :
    cellCount e.boardSize e.board p ≤ (if e.boardSize = 3 then 3 else 4) := by
  obtain ⟨-, -, hinv⟩ := reached_inv cfg hcfg e h
  calc cellCount e.boardSize e.board p
      ≤ entCount e p := cellCount_le_entCount e p hinv.1
    _ ≤ maxPiecesNat e := (hinv.2 p).1
    _ = if e.boardSize = 3 then 3 else 4 := rfl

/-- The engine after four accepted moves on a fresh TRAINING (3×3 rolling)
engine: X (0,0), O (1,1), X (0,1), O (1,0). -/
def c5E0 : Engine := initEngine ⟨"TRAINING", 3, 3, true⟩
def c5E1 : Engine := (makeMove c5E0 0 0 .X 0).2
def c5E2 : Engine := (makeMove c5E1 1 1 .O 1).2
def c5E3 : Engine := (makeMove c5E2 0 1 .X 2).2
def c5Spot : Engine := (makeMove c5E3 1 0 .O 3).2

/-- Witness for C5: after four accepted X/O moves on a fresh TRAINING
(3×3 rolling) engine, X occupies at most 3 cells. -/
theorem rolling_mode_cap_spot :
    cellCount c5Spot.boardSize c5Spot.board .X ≤
      (if c5Spot.boardSize = 3 then 3 else 4) :=
  rolling_mode_cap ⟨"TRAINING", 3, 3, true⟩ rfl c5Spot
    (@Reached.step ⟨"TRAINING", 3, 3, true⟩ c5E3 c5Spot 1 0 .O 3
      (@Reached.step ⟨"TRAINING", 3, 3, true⟩ c5E2 c5E3 0 1 .X 2
        (@Reached.step ⟨"TRAINING", 3, 3, true⟩ c5E1 c5E2 1 1 .O 1
          (@Reached.step ⟨"TRAINING", 3, 3, true⟩ c5E0 c5E1 0 0 .X 0
            Reached.init (by decide!))
          (by decide!)) (by decide!)) (by decide!)) .X

end NeonXO
